import Mathlib

/-!
Verification of the identity-to-team reconciliation engine of the
`github-ops-app` repository, shallowly embedded from the Go sources
`internal/github/teams.go`, `internal/github/client.go`,
`internal/okta/sync.go` and `internal/okta/client.go`.

External API calls (GitHub and Okta) are modelled by explicit environments:
a record of pure functions that decides, for every call the engine can make,
whether the call fails and what it returns.  Go's `float64` removal-ratio
arithmetic is modelled by exact rationals.  The distinct error strings the
Go code builds with `fmt.Sprintf` are modelled by a structured error type
with one constructor per format string.
-/

namespace GithubOps

/-- Errors a sync rule's group expansion can produce
(`internal/okta/{client.go,groups}` and `internal/errors/errors.go`):
empty pattern, invalid pattern, failed group listing or search, group not
found, failed member listing. -/
inductive RuleError where
  | emptyPattern
  | invalidPattern (pattern : String)
  | listGroupsFailed
  | searchFailed (name : String)
  | groupNotFound (name : String)
  | groupMembersFailed (groupId : String)
deriving DecidableEq

/-- Structured stand-in for the error strings produced in
`SyncTeamMembers`, `syncGroupToTeam`, `syncRule` and `Sync`; one
constructor per `fmt.Sprintf` format used in the Go source. -/
inductive SyncError where
  | addFailed (user team : String)
  | removeFailed (user team : String)
  | extCheckFailed (user : String)
  | ceilingExceeded (numRemove numCurrent : Nat)
  | getOrCreateTeamFailed (team : String)
  | memberSyncFailed (team : String)
  | ruleFailed (e : RuleError)
deriving DecidableEq

/-- Recognizes the safety-ceiling abort error (the
`refusing to remove %d of %d members` message of `teams.go`). -/
def SyncError.isCeiling : SyncError → Bool
  | .ceilingExceeded _ _ => true
  | _ => false

/-- Embedding of `TeamSyncResult` (`internal/github/teams.go`). -/
structure TeamSyncResult where
  teamName : String
  membersAdded : List String
  membersRemoved : List String
  membersSkippedExternal : List String
  errors : List SyncError
deriving DecidableEq

/-- Behaviour of the GitHub API as seen by the engine: for each call,
whether it fails, plus the ground-truth data it would return.
`isExternal` is the ground-truth outside-collaborator status that
`IsExternalCollaborator` reports when its call succeeds
(`internal/github/client.go:201-215`). -/
structure GitHubEnv where
  addFails : String → String → Bool
  removeFails : String → String → Bool
  isExternal : String → Bool
  extCheckFails : String → Bool
  getTeamBySlugFails : String → Bool
  createTeamFails : String → Bool
  getTeamMembersFails : String → Bool
  orgMembers : List String
  listOrgMembersFails : Bool

/-- Mutable GitHub-side state: the set of existing teams and each
team's current roster. -/
structure GitHubState where
  teams : List String
  roster : String → List String

/-- Result of `IsExternalCollaborator`: `none` models the error return,
`some b` a successful answer. -/
def extCheck (env : GitHubEnv) (u : String) : Option Bool :=
  if env.extCheckFails u then none else some (env.isExternal u)

/-- Effect of a successful `AddTeamMembershipBySlug` call on a roster. -/
def rosterAdd (roster : List String) (u : String) : List String :=
  if roster.contains u then roster else roster ++ [u]

/-- Effect of a successful `RemoveTeamMembershipBySlug` call on a roster. -/
def rosterRemove (roster : List String) (u : String) : List String :=
  roster.filter (fun v => v != u)

/-- Replaces one team's roster in the GitHub state. -/
def setRoster (st : GitHubState) (slug : String) (r : List String) : GitHubState :=
  { st with roster := fun t => if t = slug then r else st.roster t }

/-- Addition loop of `SyncTeamMembers` (`teams.go:101-111`): walks the
desired members in order, attempting an add for each one absent from the
current-membership snapshot, collecting per-member errors, and threading
the team's roster. -/
def addLoop (env : GitHubEnv) (teamSlug : String) (currentMembers : List String) :
    List String → TeamSyncResult × List String → TeamSyncResult × List String
  | [], s => s
  | d :: rest, (r, roster) =>
    if currentMembers.contains d then
      addLoop env teamSlug currentMembers rest (r, roster)
    else if env.addFails teamSlug d then
      addLoop env teamSlug currentMembers rest
        ({ r with errors := r.errors ++ [SyncError.addFailed d teamSlug] }, roster)
    else
      addLoop env teamSlug currentMembers rest
        ({ r with membersAdded := r.membersAdded ++ [d] }, rosterAdd roster d)

/-- Removal loop of `SyncTeamMembers` (`teams.go:130-150`): for each removal
candidate, first checks outside-collaborator status (errors are collected,
outside collaborators are recorded as skipped), then attempts the removal. -/
def removeLoop (env : GitHubEnv) (teamSlug : String) :
    List String → TeamSyncResult × List String → TeamSyncResult × List String
  | [], s => s
  | u :: rest, (r, roster) =>
    match extCheck env u with
    | none =>
      removeLoop env teamSlug rest
        ({ r with errors := r.errors ++ [SyncError.extCheckFailed u] }, roster)
    | some true =>
      removeLoop env teamSlug rest
        ({ r with membersSkippedExternal := r.membersSkippedExternal ++ [u] }, roster)
    | some false =>
      if env.removeFails teamSlug u then
        removeLoop env teamSlug rest
          ({ r with errors := r.errors ++ [SyncError.removeFailed u teamSlug] }, roster)
      else
        removeLoop env teamSlug rest
          ({ r with membersRemoved := r.membersRemoved ++ [u] }, rosterRemove roster u)

/-- Removal candidates of `SyncTeamMembers` (`teams.go:113-118`): current
members absent from the desired set. -/
def toRemoveOf (currentMembers desiredMembers : List String) : List String :=
  currentMembers.filter (fun c => !desiredMembers.contains c)

/-- Removal ratio of `teams.go:121` — the quotient
`float64(len(toRemove)) / float64(len(currentMembers))` — as an exact
rational.  Stated via `mkRat` so that concrete instances evaluate;
`removalRatio_eq_div` recovers the quotient form. -/
def removalRatio (nRemove nCurrent : Nat) : ℚ := mkRat nRemove nCurrent


/-- Condition under which the safety-threshold circuit breaker of
`teams.go:120-128` fires: a non-empty current roster whose removal ratio
strictly exceeds the threshold. -/
abbrev ceilingTriggered (currentMembers desiredMembers : List String)
    (safetyThreshold : ℚ) : Prop :=
  0 < currentMembers.length ∧
    removalRatio (toRemoveOf currentMembers desiredMembers).length currentMembers.length >
      safetyThreshold

/-- Core of `SyncTeamMembers` (`teams.go:73-153`) after the current roster
has been fetched: performs the addition loop, computes the removal
candidates, applies the safety-threshold circuit breaker, and runs the
removal loop.  Returns the result record together with the team's roster
after all successful API calls. -/
def syncTeamMembersCore (env : GitHubEnv) (teamSlug : String)
    (currentMembers desiredMembers : List String) (safetyThreshold : ℚ) :
    TeamSyncResult × List String :=
  let init : TeamSyncResult :=
    { teamName := teamSlug, membersAdded := [], membersRemoved := [],
      membersSkippedExternal := [], errors := [] }
  let s1 := addLoop env teamSlug currentMembers desiredMembers (init, currentMembers)
  let toRemove := toRemoveOf currentMembers desiredMembers
  if 0 < currentMembers.length then
    if removalRatio toRemove.length currentMembers.length > safetyThreshold then
      ({ s1.1 with errors :=
          s1.1.errors ++ [SyncError.ceilingExceeded toRemove.length currentMembers.length] },
        s1.2)
    else
      removeLoop env teamSlug toRemove s1
  else
    removeLoop env teamSlug toRemove s1

/-- Roster evolution driven by the addition loop: the roster after the
successful add calls among `ds`. -/
def addRosterFold (env : GitHubEnv) (teamSlug : String) (currentMembers : List String)
    (roster : List String) : List String → List String
  | [] => roster
  | d :: rest =>
    addRosterFold env teamSlug currentMembers
      (if !currentMembers.contains d && !env.addFails teamSlug d
        then rosterAdd roster d else roster) rest

/-- Roster evolution driven by the removal loop: the roster after the
successful remove calls among `us`. -/
def removeRosterFold (env : GitHubEnv) (teamSlug : String)
    (roster : List String) : List String → List String
  | [] => roster
  | u :: rest =>
    removeRosterFold env teamSlug
      (if extCheck env u == some false && !env.removeFails teamSlug u
        then rosterRemove roster u else roster) rest

/-- Per-candidate error entry contributed by the removal loop. -/
def removeErrOf (env : GitHubEnv) (teamSlug : String) (u : String) : Option SyncError :=
  match extCheck env u with
  | none => some (SyncError.extCheckFailed u)
  | some true => none
  | some false =>
    if env.removeFails teamSlug u then some (SyncError.removeFailed u teamSlug) else none

/-- Embedding of `GetTeamMembers` (`teams.go:49-67`): fetches a team's
roster, `none` modelling the error return. -/
def getTeamMembers (env : GitHubEnv) (st : GitHubState) (teamSlug : String) :
    Option (List String) :=
  if env.getTeamMembersFails teamSlug then none else some (st.roster teamSlug)

/-- Embedding of `SyncTeamMembers` (`teams.go:73-153`): fetches the current
roster (an error aborts with `none`, mirroring the `nil, err` return) and
runs the core sync, recording the updated roster in the state. -/
def syncTeamMembers (env : GitHubEnv) (st : GitHubState) (teamSlug : String)
    (desiredMembers : List String) (safetyThreshold : ℚ) :
    Option TeamSyncResult × GitHubState :=
  match getTeamMembers env st teamSlug with
  | none => (none, st)
  | some currentMembers =>
    let s := syncTeamMembersCore env teamSlug currentMembers desiredMembers safetyThreshold
    (some s.1, setRoster st teamSlug s.2)

/-- Environment in which every API call succeeds and no user is an
outside collaborator. -/
def plainEnv : GitHubEnv where
  addFails := fun _ _ => false
  removeFails := fun _ _ => false
  isExternal := fun _ => false
  extCheckFails := fun _ => false
  getTeamBySlugFails := fun _ => false
  createTeamFails := fun _ => false
  getTeamMembersFails := fun _ => false
  orgMembers := []
  listOrgMembersFails := false

/-- Environment like `plainEnv` in which exactly the user `a` is an
outside collaborator. -/
def extAEnv : GitHubEnv := { plainEnv with isExternal := fun u => u == "a" }

/-- Embedding of `SyncRule` (`internal/okta/sync.go:16-27`); optional JSON
fields keep their Go zero values as defaults. -/
structure SyncRule where
  name : String := ""
  enabled : Option Bool := none
  oktaGroupPattern : String := ""
  oktaGroupName : String := ""
  githubTeamPrefix : String := ""
  githubTeamName : String := ""
  stripPrefix : String := ""
  syncMembers : Option Bool := none
  createTeamIfMissing : Bool := false
  teamPrivacy : String := ""
deriving DecidableEq

/-- Embedding of `SyncRule.IsEnabled` (`sync.go:30-32`): enabled unless
explicitly disabled. -/
def SyncRule.isEnabled (r : SyncRule) : Bool :=
  match r.enabled with
  | none => true
  | some b => b

/-- Embedding of `SyncRule.ShouldSyncMembers` (`sync.go:35-37`). -/
def SyncRule.shouldSyncMembers (r : SyncRule) : Bool :=
  match r.syncMembers with
  | none => true
  | some b => b

/-- Embedding of `SyncRule.GetName` (`sync.go:40-48`). -/
def SyncRule.getName (r : SyncRule) : String :=
  if r.name ≠ "" then r.name
  else if r.githubTeamName ≠ "" then r.githubTeamName
  else r.oktaGroupName

/-- Characters the team-name normalization of `sync.go:238` keeps: the
class `[a-z0-9-]` of the Go regular expression. -/
def isTeamNameChar (c : Char) : Bool :=
  ('a' ≤ c && c ≤ 'z') || ('0' ≤ c && c ≤ '9') || c == '-'

/-- Replacement applied by `ReplaceAllString` for the pattern `[^a-z0-9-]`
(`sync.go:238`): characters outside the class become a dash. -/
def sanitizeChar (c : Char) : Char :=
  if isTeamNameChar c then c else '-'

/-- Embedding of `strings.TrimPrefix` on character lists: removes the
leading occurrence of `p` from `s` when present. -/
def trimPrefix (s p : String) : String :=
  if p.data.isPrefixOf s.data then ⟨s.data.drop p.data.length⟩ else s

/-- Embedding of `strings.ToLower` (`sync.go:237`), lowering each
character.  `Char.toLower` lowers the ASCII range; non-ASCII letters are
replaced by a dash in the subsequent normalization step either way. -/
def lowerString (s : String) : String :=
  ⟨s.data.map Char.toLower⟩

/-- Embedding of the `[^a-z0-9-]` → `-` normalization (`sync.go:238`). -/
def sanitizeString (s : String) : String :=
  ⟨s.data.map sanitizeChar⟩

/-- Embedding of `computeTeamName` (`sync.go:222-241`): an explicit
`github_team_name` is returned verbatim; otherwise the strip-prefix is
removed when present, the team prefix prepended when present, and the
result lower-cased and normalized to `[a-z0-9-]`. -/
def computeTeamName (oktaGroupName : String) (rule : SyncRule) : String :=
  if rule.githubTeamName ≠ "" then rule.githubTeamName
  else
    let t1 := oktaGroupName
    let t2 := if rule.stripPrefix ≠ "" then trimPrefix t1 rule.stripPrefix else t1
    let t3 := if rule.githubTeamPrefix ≠ "" then rule.githubTeamPrefix ++ t2 else t2
    sanitizeString (lowerString t3)

/-- Sample rule deriving team names from group names by stripping `okta-`
and prepending `gh-`. -/
def ruleDerive : SyncRule := { stripPrefix := "okta-", githubTeamPrefix := "gh-" }

/-- Value held in an Okta user profile field (Go `interface{}`): a string
or some non-string value. -/
inductive ProfileValue where
  | str (s : String)
  | nonString
deriving DecidableEq

/-- Okta directory user as consumed by `GetGroupMembers`
(`internal/okta/client.go:191-224`): account status and the nilable
profile attribute map. -/
structure OktaUser where
  status : String
  profile : Option (List (String × ProfileValue))
deriving DecidableEq

/-- Map lookup in a profile attribute list (Go `(*user.Profile)[key]`). -/
def profileGet (p : List (String × ProfileValue)) (k : String) : Option ProfileValue :=
  (p.find? (fun kv => kv.1 == k)).map (fun kv => kv.2)

/-- Embedding of `GroupMembersResult` (`client.go:182-185`). -/
structure GroupMembersResult where
  members : List String
  skippedNoGitHubUsername : List String
deriving DecidableEq

/-- Whether a directory user counts as active (`client.go:203`). -/
def isActive (u : OktaUser) : Bool := u.status == "ACTIVE"

/-- Email-fallback tracking of `client.go:215-219`: a user without a usable
GitHub username is recorded by email only when the profile holds a
non-empty string under `email`. -/
def trackByEmail (p : List (String × ProfileValue)) (acc : GroupMembersResult) :
    GroupMembersResult :=
  match profileGet p "email" with
  | some (ProfileValue.str e) =>
    if e ≠ "" then
      { acc with skippedNoGitHubUsername := acc.skippedNoGitHubUsername ++ [e] }
    else acc
  | _ => acc

/-- Member loop of `GetGroupMembers` (`client.go:202-221`): non-active
users and users with a nil profile are skipped, a non-empty string GitHub
username goes to `Members`, and everyone else is tracked by email when
possible. -/
def getGroupMembersLoop (githubUserField : String) :
    List OktaUser → GroupMembersResult → GroupMembersResult
  | [], acc => acc
  | user :: rest, acc =>
    if user.status ≠ "ACTIVE" then getGroupMembersLoop githubUserField rest acc
    else
      match user.profile with
      | none => getGroupMembersLoop githubUserField rest acc
      | some p =>
        match profileGet p githubUserField with
        | some (ProfileValue.str username) =>
          if username ≠ "" then
            getGroupMembersLoop githubUserField rest
              { acc with members := acc.members ++ [username] }
          else getGroupMembersLoop githubUserField rest (trackByEmail p acc)
        | _ => getGroupMembersLoop githubUserField rest (trackByEmail p acc)

/-- Embedding of `GetGroupMembers` (`client.go:191-224`) applied to the
fetched user list. -/
def getGroupMembers (githubUserField : String) (users : List OktaUser) : GroupMembersResult :=
  getGroupMembersLoop githubUserField users { members := [], skippedNoGitHubUsername := [] }

/-- GitHub username a user contributes to `Members`: the non-empty string
value of the configured profile field, if any. -/
def usernameOf (githubUserField : String) (u : OktaUser) : Option String :=
  match u.profile with
  | none => none
  | some p =>
    match profileGet p githubUserField with
    | some (ProfileValue.str s) => if s ≠ "" then some s else none
    | _ => none

/-- Email a user would be tracked under in the skipped list: the non-empty
string value of the `email` profile field, if any. -/
def emailOf (u : OktaUser) : Option String :=
  match u.profile with
  | none => none
  | some p =>
    match profileGet p "email" with
    | some (ProfileValue.str e) => if e ≠ "" then some e else none
    | _ => none

/-- Embedding of `OrphanedUsersReport` (`internal/okta/sync.go:65-67`). -/
structure OrphanedUsersReport where
  orphanedUsers : List String
deriving DecidableEq

/-- Covered-set accumulation of `DetectOrphanedUsers` (`sync.go:154-166`):
rosters of the synced teams are unioned; a failed roster fetch skips just
that team. -/
def coveredFold (env : GitHubEnv) (st : GitHubState) :
    List String → List String → List String
  | [], acc => acc
  | teamSlug :: rest, acc =>
    match getTeamMembers env st teamSlug with
    | none => coveredFold env st rest acc
    | some members => coveredFold env st rest (acc ++ members)

/-- Embedding of `DetectOrphanedUsers` (`sync.go:148-188`): an org member
is reported orphaned when it lies in no successfully fetched synced-team
roster and its outside-collaborator check succeeds with a negative answer;
a check error skips the member. -/
def detectOrphanedUsers (env : GitHubEnv) (st : GitHubState)
    (syncedTeams : List String) : Option OrphanedUsersReport :=
  if env.listOrgMembersFails then none
  else
    let syncedUsers := coveredFold env st syncedTeams []
    some { orphanedUsers := env.orgMembers.filter (fun m =>
      !syncedUsers.contains m &&
        match extCheck env m with
        | none => false
        | some ext => !ext) }

/-- Embedding of `GroupInfo` (Okta group details and member list). -/
structure GroupInfo where
  id : String
  name : String
  members : List String
  skippedNoGitHubUsername : List String
deriving DecidableEq

/-- Directory-side ground truth for one Okta group: identifier, display
name, whether its profile is non-nil, and its raw user records. -/
structure OktaGroupRec where
  id : String
  name : String
  hasProfile : Bool
  users : List OktaUser
deriving DecidableEq

/-- Behaviour of the Okta API as seen by the engine.  `patternCompiles`
and `patternMatches` model Go's `regexp.Compile`/`MatchString` for the
configured patterns. -/
structure OktaEnv where
  groups : List OktaGroupRec
  listGroupsFails : Bool
  searchFails : String → Bool
  groupUsersFails : String → Bool
  patternCompiles : String → Bool
  patternMatches : String → String → Bool
  githubUserField : String

/-- Embedding of the `GetGroupMembers` call for one group: `none` models
the `ListGroupUsers` error. -/
def getGroupMembersResult (env : OktaEnv) (g : OktaGroupRec) : Option GroupMembersResult :=
  if env.groupUsersFails g.id then none
  else some (getGroupMembers env.githubUserField g.users)

/-- Embedding of `GetGroupsByPattern`: rejects empty and non-compiling
patterns, then selects every group with a profile whose name matches;
groups whose member fetch fails are silently skipped. -/
def getGroupsByPattern (env : OktaEnv) (pattern : String) :
    Except RuleError (List GroupInfo) :=
  if pattern = "" then .error .emptyPattern
  else if !env.patternCompiles pattern then .error (.invalidPattern pattern)
  else if env.listGroupsFails then .error .listGroupsFailed
  else .ok (env.groups.filterMap (fun g =>
    if !g.hasProfile then none
    else if env.patternMatches pattern g.name then
      match getGroupMembersResult env g with
      | none => none
      | some res => some
          { id := g.id, name := g.name, members := res.members,
            skippedNoGitHubUsername := res.skippedNoGitHubUsername }
    else none))

/-- Embedding of `GetGroupByName`: exact display-name match over the
searched groups. -/
def getGroupByName (env : OktaEnv) (name : String) : Except RuleError OktaGroupRec :=
  if env.searchFails name then .error (.searchFailed name)
  else
    match env.groups.find? (fun g => g.name == name) with
    | some g => .ok g
    | none => .error (.groupNotFound name)

/-- Embedding of `GetGroupInfo`: resolve the group by name, then fetch its
members. -/
def getGroupInfo (env : OktaEnv) (name : String) : Except RuleError GroupInfo :=
  match getGroupByName env name with
  | .error e => .error e
  | .ok g =>
    match getGroupMembersResult env g with
    | none => .error (.groupMembersFailed g.id)
    | some res => .ok
        { id := g.id, name := g.name, members := res.members,
          skippedNoGitHubUsername := res.skippedNoGitHubUsername }

/-- Embedding of `SyncReport` (`sync.go:52-61`). -/
structure SyncReport where
  rule : String
  oktaGroup : String
  githubTeam : String
  membersAdded : List String
  membersRemoved : List String
  membersSkippedExternal : List String
  membersSkippedNoGHUsername : List String
  errors : List SyncError
deriving DecidableEq

/-- Embedding of `GetOrCreateTeam` (`teams.go:23-46`): a non-404 fetch
error fails the call; a missing team is created unconditionally (the
configured privacy only decorates the created team and has no further
observable effect here). -/
def getOrCreateTeam (env : GitHubEnv) (st : GitHubState) (teamName _privacy : String) :
    Option String × GitHubState :=
  if env.getTeamBySlugFails teamName then (none, st)
  else if st.teams.contains teamName then (some teamName, st)
  else if env.createTeamFails teamName then (none, st)
  else (some teamName,
    { teams := teamName :: st.teams,
      roster := fun t => if t = teamName then [] else st.roster t })

/-- Report skeleton `syncGroupToTeam` starts from (`sync.go:246-252`). -/
def reportInit (rule : SyncRule) (group : GroupInfo) (teamName : String) : SyncReport :=
  { rule := rule.getName, oktaGroup := group.name, githubTeam := teamName,
    membersAdded := [], membersRemoved := [], membersSkippedExternal := [],
    membersSkippedNoGHUsername := group.skippedNoGitHubUsername, errors := [] }

/-- Embedding of `syncGroupToTeam` (`sync.go:245-299`): get-or-create the
team, honour `sync_members`, run the member sync, and merge its lists and
errors into the report. -/
def syncGroupToTeam (env : GitHubEnv) (safetyThreshold : ℚ) (st : GitHubState)
    (rule : SyncRule) (group : GroupInfo) (teamName : String) : SyncReport × GitHubState :=
  let report : SyncReport := reportInit rule group teamName
  match getOrCreateTeam env st teamName
      (if rule.teamPrivacy ≠ "" then rule.teamPrivacy else "closed") with
  | (none, st') =>
    ({ report with errors := report.errors ++ [SyncError.getOrCreateTeamFailed teamName] }, st')
  | (some teamSlug, st') =>
    if !rule.shouldSyncMembers then (report, st')
    else
      match syncTeamMembers env st' teamSlug group.members safetyThreshold with
      | (none, st2) =>
        ({ report with errors := report.errors ++ [SyncError.memberSyncFailed teamSlug] }, st2)
      | (some res, st2) =>
        ({ report with
            membersAdded := res.membersAdded,
            membersRemoved := res.membersRemoved,
            membersSkippedExternal := res.membersSkippedExternal,
            errors := report.errors ++ res.errors }, st2)

/-- Group expansion of `syncRule` (`sync.go:192-218`): pattern rules query
all matching groups, exact-name rules query one group, selector-less rules
expand to nothing. -/
def expandRule (env : OktaEnv) (rule : SyncRule) : Except RuleError (List GroupInfo) :=
  if rule.oktaGroupPattern ≠ "" then getGroupsByPattern env rule.oktaGroupPattern
  else if rule.oktaGroupName ≠ "" then
    match getGroupInfo env rule.oktaGroupName with
    | .error e => .error e
    | .ok g => .ok [g]
  else .ok []

/-- Per-group loop of `syncRule`: one `syncGroupToTeam` call and one
report per expanded group, threading the GitHub state. -/
def pairsRun (genv : GitHubEnv) (thr : ℚ) (rule : SyncRule) :
    List GroupInfo → GitHubState → List SyncReport × GitHubState
  | [], st => ([], st)
  | g :: gs, st =>
    let s := syncGroupToTeam genv thr st rule g (computeTeamName g.name rule)
    let rest := pairsRun genv thr rule gs s.2
    (s.1 :: rest.1, rest.2)

/-- Embedding of `syncRule` (`sync.go:192-218`). -/
def syncRule (oenv : OktaEnv) (genv : GitHubEnv) (thr : ℚ) (st : GitHubState)
    (rule : SyncRule) : Except RuleError (List SyncReport) × GitHubState :=
  match expandRule oenv rule with
  | .error e => (.error e, st)
  | .ok groups =>
    let s := pairsRun genv thr rule groups st
    (.ok s.1, s.2)

/-- Synthetic error-only report `Sync` emits for a failed rule
(`sync.go:123-129`). -/
def failedReport (rule : SyncRule) (e : RuleError) : SyncReport :=
  { rule := rule.getName, oktaGroup := rule.oktaGroupName, githubTeam := rule.githubTeamName,
    membersAdded := [], membersRemoved := [], membersSkippedExternal := [],
    membersSkippedNoGHUsername := [], errors := [SyncError.ruleFailed e] }

/-- Rule loop of `Sync` (`sync.go:111-134`): disabled rules are skipped,
failed rules contribute a synthetic report and bump the failure count,
successful rules append their reports. -/
def syncLoop (oenv : OktaEnv) (genv : GitHubEnv) (thr : ℚ) :
    List SyncRule → List SyncReport × Nat × GitHubState →
      List SyncReport × Nat × GitHubState
  | [], acc => acc
  | rule :: rest, (reports, failed, st) =>
    if !rule.isEnabled then syncLoop oenv genv thr rest (reports, failed, st)
    else
      match syncRule oenv genv thr st rule with
      | (.error e, st') =>
        syncLoop oenv genv thr rest (reports ++ [failedReport rule e], failed + 1, st')
      | (.ok rs, st') => syncLoop oenv genv thr rest (reports ++ rs, failed, st')

/-- Embedding of `Sync` (`sync.go:107-144`): runs every enabled rule and
fails in the aggregate — carrying the failed-rule count of the
`all sync rules failed` error — exactly when the failure count is positive
and equals the number of reports. -/
def sync (oenv : OktaEnv) (genv : GitHubEnv) (thr : ℚ) (rules : List SyncRule)
    (st : GitHubState) : Except Nat (List SyncReport) × GitHubState :=
  let s := syncLoop oenv genv thr rules ([], 0, st)
  if 0 < s.2.1 ∧ s.2.1 = s.1.length then (.error s.2.1, s.2.2)
  else (.ok s.1, s.2.2)

/-- Whether a rule's expansion fails (the condition under which `Sync`
counts it as failed). -/
def ruleFails (oenv : OktaEnv) (rule : SyncRule) : Bool :=
  match expandRule oenv rule with
  | .error _ => true
  | .ok _ => false

/-- Groups a rule successfully expands to (empty for failed rules). -/
def expandedGroups (oenv : OktaEnv) (rule : SyncRule) : List GroupInfo :=
  match expandRule oenv rule with
  | .error _ => []
  | .ok gs => gs

/-- Pairs (rule, group) an enabled rule contributes to a `Sync` run. -/
def enabledRulePairs (oenv : OktaEnv) (r : SyncRule) : List (SyncRule × GroupInfo) :=
  if r.isEnabled then (expandedGroups oenv r).map (fun g => (r, g)) else []

/-- All (rule, group) pairs a `Sync` run processes, in order. -/
def allPairs (oenv : OktaEnv) (rules : List SyncRule) : List (SyncRule × GroupInfo) :=
  rules.flatMap (enabledRulePairs oenv)

/-- Derived team name of a (rule, group) pair. -/
def teamOfPair (p : SyncRule × GroupInfo) : String := computeTeamName p.2.name p.1

/-- Pair-level restatement of the `Sync` processing order: one
`syncGroupToTeam` call per pair, threading the GitHub state. -/
def pairsRunAll (genv : GitHubEnv) (thr : ℚ) :
    List (SyncRule × GroupInfo) → GitHubState → List SyncReport × GitHubState
  | [], st => ([], st)
  | p :: ps, st =>
    let s := syncGroupToTeam genv thr st p.1 p.2 (teamOfPair p)
    let rest := pairsRunAll genv thr ps s.2
    (s.1 :: rest.1, rest.2)

/-- Decidable equality for `Except`, so concrete `sync` outcomes can be
checked by evaluation. -/
instance {ε α : Type} [DecidableEq ε] [DecidableEq α] : DecidableEq (Except ε α) := fun x y =>
  match x, y with
  | Except.error a, Except.error b =>
    if h : a = b then isTrue (congrArg Except.error h)
    else isFalse fun hc => h (Except.error.inj hc)
  | Except.ok a, Except.ok b =>
    if h : a = b then isTrue (congrArg Except.ok h)
    else isFalse fun hc => h (Except.ok.inj hc)
  | Except.error _, Except.ok _ => isFalse fun hc => Except.noConfusion hc
  | Except.ok _, Except.error _ => isFalse fun hc => Except.noConfusion hc

/-- Number of enabled rules whose expansion fails in a `Sync` run. -/
def enabledFailCount (oenv : OktaEnv) (rules : List SyncRule) : Nat :=
  (rules.filter (fun r => r.isEnabled && ruleFails oenv r)).length

/-- Total number of groups the enabled, successfully expanding rules
resolve to in a `Sync` run. -/
def enabledGroupCount (oenv : OktaEnv) (rules : List SyncRule) : Nat :=
  ((rules.filter (fun r => r.isEnabled && !ruleFails oenv r)).map
    (fun r => (expandedGroups oenv r).length)).sum

/-- GitHub state with no teams and empty rosters. -/
def stEmpty : GitHubState := { teams := [], roster := fun _ => [] }

/-- Directory with no groups, where all calls succeed. -/
def oenvEmptyDir : OktaEnv :=
  { groups := [], listGroupsFails := false, searchFails := fun _ => false,
    groupUsersFails := fun _ => false, patternCompiles := fun _ => true,
    patternMatches := fun _ _ => false, githubUserField := "ghu" }

/-- Active directory user whose GitHub username field holds `b`. -/
def userB : OktaUser :=
  { status := "ACTIVE", profile := some [("ghu", ProfileValue.str "b")] }

/-- Directory record for the group `g` containing only `userB`. -/
def groupRecG : OktaGroupRec :=
  { id := "gid", name := "g", hasProfile := true, users := [userB] }

/-- Directory holding the single group `g` with one active member whose
GitHub username is `b`, where all calls succeed. -/
def oenvOneGroup : OktaEnv :=
  { groups := [groupRecG],
    listGroupsFails := false, searchFails := fun _ => false,
    groupUsersFails := fun _ => false, patternCompiles := fun _ => true,
    patternMatches := fun _ _ => false, githubUserField := "ghu" }

/-- Exact-name rule targeting a group that does not exist. -/
def ruleMissing : SyncRule := { name := "r1", oktaGroupName := "missing" }

/-- Rule with no selector: expands to zero pairs by design. -/
def ruleInert : SyncRule := { name := "r2" }

/-- Exact-name rule mapping group `g` to team `t`. -/
def ruleGT : SyncRule := { name := "rw", oktaGroupName := "g", githubTeamName := "t" }

/-- Rule targeting team `t` with `create_team_if_missing` explicitly
false. -/
def ruleNoCreate : SyncRule :=
  { name := "r", oktaGroupName := "g", githubTeamName := "t", createTeamIfMissing := false }

/-- Group value used to exercise `syncGroupToTeam` directly. -/
def groupG : GroupInfo := { id := "gid", name := "g", members := [], skippedNoGitHubUsername := [] }

/-- GitHub state owning the single team `t` with roster `[a]`. -/
def stTeamA : GitHubState :=
  { teams := ["t"], roster := fun t => if t = "t" then ["a"] else [] }

/-- First-run report of a clean sync of group `g` into the fresh team
`t`: the member `b` is added. -/
def rep1W : SyncReport :=
  { rule := "rw", oktaGroup := "g", githubTeam := "t", membersAdded := ["b"],
    membersRemoved := [], membersSkippedExternal := [],
    membersSkippedNoGHUsername := [], errors := [] }

/-- Second-run report of that sync: no changes. -/
def rep2W : SyncReport :=
  { rule := "rw", oktaGroup := "g", githubTeam := "t", membersAdded := [],
    membersRemoved := [], membersSkippedExternal := [],
    membersSkippedNoGHUsername := [], errors := [] }

/-- First-run report when the ceiling fires on roster `[a]`, desired
`[b]`, threshold `3/5`: `b` was already added, the removal aborted. -/
def rep1C : SyncReport :=
  { rule := "rw", oktaGroup := "g", githubTeam := "t", membersAdded := ["b"],
    membersRemoved := [], membersSkippedExternal := [],
    membersSkippedNoGHUsername := [], errors := [SyncError.ceilingExceeded 1 1] }

/-- Second-run report of that scenario: the ratio has dropped to `1/2`,
so `a` is now removed. -/
def rep2C : SyncReport :=
  { rule := "rw", oktaGroup := "g", githubTeam := "t", membersAdded := [],
    membersRemoved := ["a"], membersSkippedExternal := [],
    membersSkippedNoGHUsername := [], errors := [] }

/-- Environment for orphan detection: org members `w` and `x`, where the
collaborator check errors exactly on `w`. -/
def orphanEnv : GitHubEnv :=
  { plainEnv with orgMembers := ["w", "x"], extCheckFails := fun u => u == "w" }

theorem removalRatio_eq_div (nRemove nCurrent : Nat) :
    removalRatio nRemove nCurrent = (nRemove : ℚ) / (nCurrent : ℚ) := by
  rw [removalRatio, Rat.mkRat_eq_div]
  norm_num

section LoopLemmas

variable (env : GitHubEnv) (slug : String)

theorem rosterAdd_mem (roster : List String) (u d : String) :
    u ∈ rosterAdd roster d ↔ u ∈ roster ∨ u = d := by
  by_cases h : roster.contains d
  · have hd : d ∈ roster := by simpa using h
    simp only [rosterAdd, h, if_pos]
    constructor
    · exact Or.inl
    · rintro (hu | rfl)
      · exact hu
      · exact hd
  · simp only [rosterAdd, h]
    simp

theorem rosterRemove_mem (roster : List String) (u v : String) :
    u ∈ rosterRemove roster v ↔ u ∈ roster ∧ u ≠ v := by
  simp [rosterRemove]

theorem addLoop_eq (cur ds : List String) :
    ∀ (r : TeamSyncResult) (roster : List String),
      addLoop env slug cur ds (r, roster) =
        ({ r with
            membersAdded := r.membersAdded ++
              ds.filter (fun d => !cur.contains d && !env.addFails slug d),
            errors := r.errors ++
              (ds.filter (fun d => !cur.contains d && env.addFails slug d)).map
                (fun d => SyncError.addFailed d slug) },
          addRosterFold env slug cur roster ds) := by
  induction ds with
  | nil => intro r roster; simp [addLoop, addRosterFold]
  | cons d rest ih =>
    intro r roster
    by_cases h1 : d ∈ cur
    · simp [addLoop, h1, ih, addRosterFold, List.filter_cons]
    · by_cases h2 : env.addFails slug d = true
      · simp [addLoop, h1, h2, ih, addRosterFold, List.filter_cons, List.append_assoc]
      · simp [addLoop, h1, h2, ih, addRosterFold, List.filter_cons, List.append_assoc]

theorem removeLoop_eq (us : List String) :
    ∀ (r : TeamSyncResult) (roster : List String),
      removeLoop env slug us (r, roster) =
        ({ r with
            membersRemoved := r.membersRemoved ++
              us.filter (fun u => extCheck env u == some false && !env.removeFails slug u),
            membersSkippedExternal := r.membersSkippedExternal ++
              us.filter (fun u => extCheck env u == some true),
            errors := r.errors ++ us.filterMap (removeErrOf env slug) },
          removeRosterFold env slug roster us) := by
  induction us with
  | nil => intro r roster; simp [removeLoop, removeRosterFold]
  | cons u rest ih =>
    intro r roster
    rcases hc : extCheck env u with _ | b
    · simp [removeLoop, hc, ih, removeRosterFold, removeErrOf, List.filter_cons,
        List.append_assoc]
    · cases b
      · by_cases h2 : env.removeFails slug u = true
        · simp [removeLoop, hc, h2, ih, removeRosterFold, removeErrOf, List.filter_cons,
            List.append_assoc]
        · simp [removeLoop, hc, h2, ih, removeRosterFold, removeErrOf, List.filter_cons,
            List.append_assoc]
      · simp [removeLoop, hc, ih, removeRosterFold, removeErrOf, List.filter_cons,
          List.append_assoc]

theorem addRosterFold_mem (cur : List String) :
    ∀ (ds roster : List String) (u : String),
      u ∈ addRosterFold env slug cur roster ds ↔
        u ∈ roster ∨ (u ∈ ds ∧ cur.contains u = false ∧ env.addFails slug u = false)
  | [], roster, u => by simp [addRosterFold]
  | d :: rest, roster, u => by
    simp only [addRosterFold]
    rw [addRosterFold_mem cur rest _ u]
    by_cases hd : (!cur.contains d && !env.addFails slug d) = true
    · simp only [hd, if_pos, rosterAdd_mem]
      simp only [Bool.and_eq_true, Bool.not_eq_true'] at hd
      constructor
      · rintro ((hu | rfl) | hrest)
        · exact Or.inl hu
        · exact Or.inr ⟨List.mem_cons_self _ _, hd.1, hd.2⟩
        · exact Or.inr ⟨List.mem_cons_of_mem _ hrest.1, hrest.2⟩
      · rintro (hu | ⟨hmem, hcur, hfail⟩)
        · exact Or.inl (Or.inl hu)
        · rcases List.mem_cons.mp hmem with rfl | hmem
          · exact Or.inl (Or.inr rfl)
          · exact Or.inr ⟨hmem, hcur, hfail⟩
    · simp only [hd, if_neg, Bool.not_eq_true]
      simp only [Bool.and_eq_true, Bool.not_eq_true', not_and_or] at hd
      constructor
      · rintro (hu | hrest)
        · exact Or.inl hu
        · exact Or.inr ⟨List.mem_cons_of_mem _ hrest.1, hrest.2⟩
      · rintro (hu | ⟨hmem, hcur, hfail⟩)
        · exact Or.inl hu
        · rcases List.mem_cons.mp hmem with rfl | hmem
          · rcases hd with hd | hd
            · exact absurd hcur hd
            · exact absurd hfail hd
          · exact Or.inr ⟨hmem, hcur, hfail⟩

theorem removeRosterFold_mem :
    ∀ (us roster : List String) (u : String),
      u ∈ removeRosterFold env slug roster us ↔
        u ∈ roster ∧ ¬(u ∈ us ∧ extCheck env u = some false ∧ env.removeFails slug u = false)
  | [], roster, u => by simp [removeRosterFold]
  | v :: rest, roster, u => by
    simp only [removeRosterFold]
    rw [removeRosterFold_mem rest _ u]
    by_cases hv : (extCheck env v == some false && !env.removeFails slug v) = true
    · simp only [hv, if_pos, rosterRemove_mem]
      simp only [Bool.and_eq_true, beq_iff_eq, Bool.not_eq_true'] at hv
      constructor
      · rintro ⟨⟨hu, hne⟩, hrest⟩
        refine ⟨hu, ?_⟩
        rintro ⟨hmem, hext, hfail⟩
        rcases List.mem_cons.mp hmem with rfl | hmem
        · exact hne rfl
        · exact hrest ⟨hmem, hext, hfail⟩
      · rintro ⟨hu, hnot⟩
        have hne : u ≠ v := by
          rintro rfl
          exact hnot ⟨List.mem_cons_self _ _, hv.1, hv.2⟩
        refine ⟨⟨hu, hne⟩, ?_⟩
        rintro ⟨hmem, hext, hfail⟩
        exact hnot ⟨List.mem_cons_of_mem _ hmem, hext, hfail⟩
    · simp only [hv, if_neg, Bool.not_eq_true]
      simp only [Bool.and_eq_true, beq_iff_eq, Bool.not_eq_true', not_and_or] at hv
      constructor
      · rintro ⟨hu, hrest⟩
        refine ⟨hu, ?_⟩
        rintro ⟨hmem, hext, hfail⟩
        rcases List.mem_cons.mp hmem with rfl | hmem
        · rcases hv with hv | hv
          · exact hv hext
          · exact hv hfail
        · exact hrest ⟨hmem, hext, hfail⟩
      · rintro ⟨hu, hnot⟩
        refine ⟨hu, ?_⟩
        rintro ⟨hmem, hext, hfail⟩
        exact hnot ⟨List.mem_cons_of_mem _ hmem, hext, hfail⟩

end LoopLemmas

section CoreLemmas

variable (env : GitHubEnv) (slug : String) (C D : List String) (t : ℚ)

theorem toRemoveOf_mem (u : String) : u ∈ toRemoveOf C D ↔ u ∈ C ∧ u ∉ D := by
  simp [toRemoveOf]

/-- Closed form of the member-sync core when the circuit breaker fires:
the addition loop has already run, the removal loop never starts, and the
ceiling error is appended last. -/
theorem syncTeamMembersCore_ceiling (h : ceilingTriggered C D t) :
    syncTeamMembersCore env slug C D t =
      ({ teamName := slug,
          membersAdded := D.filter (fun d => !C.contains d && !env.addFails slug d),
          membersRemoved := [],
          membersSkippedExternal := [],
          errors := (D.filter (fun d => !C.contains d && env.addFails slug d)).map
              (fun d => SyncError.addFailed d slug) ++
            [SyncError.ceilingExceeded (toRemoveOf C D).length C.length] },
        addRosterFold env slug C C D) := by
  obtain ⟨h1, h2⟩ := h
  simp only [syncTeamMembersCore, addLoop_eq, if_pos h1, if_pos h2]
  simp

/-- Closed form of the member-sync core when the circuit breaker does not
fire: both loops run to completion. -/
theorem syncTeamMembersCore_no_ceiling (h : ¬ceilingTriggered C D t) :
    syncTeamMembersCore env slug C D t =
      ({ teamName := slug,
          membersAdded := D.filter (fun d => !C.contains d && !env.addFails slug d),
          membersRemoved := (toRemoveOf C D).filter
            (fun u => extCheck env u == some false && !env.removeFails slug u),
          membersSkippedExternal := (toRemoveOf C D).filter
            (fun u => extCheck env u == some true),
          errors := (D.filter (fun d => !C.contains d && env.addFails slug d)).map
              (fun d => SyncError.addFailed d slug) ++
            (toRemoveOf C D).filterMap (removeErrOf env slug) },
        removeRosterFold env slug (addRosterFold env slug C C D) (toRemoveOf C D)) := by
  by_cases h1 : 0 < C.length
  · have h2 : ¬(removalRatio (toRemoveOf C D).length C.length > t) := fun hgt => h ⟨h1, hgt⟩
    simp only [syncTeamMembersCore, addLoop_eq, if_pos h1, if_neg h2, removeLoop_eq]
    simp
  · simp only [syncTeamMembersCore, addLoop_eq, if_neg h1, removeLoop_eq]
    simp

end CoreLemmas

/-- C1 (amended): when the current roster is non-empty and the removal
ratio strictly exceeds the safety threshold, `SyncTeamMembers` removes and
skips nobody, records exactly one ceiling-abort error, and never attempts
a remove call — but the additions, which the code performs before the
ceiling check, are not withheld: `MembersAdded` holds every successful add
of a desired member absent from the current roster. -/
theorem syncTeamMembers_ceiling_abort (env : GitHubEnv) (slug : String)
    (C D : List String) (t : ℚ) (h : ceilingTriggered C D t) :
    (syncTeamMembersCore env slug C D t).1.membersRemoved = [] ∧
    (syncTeamMembersCore env slug C D t).1.membersSkippedExternal = [] ∧
    (syncTeamMembersCore env slug C D t).1.errors.filter SyncError.isCeiling =
      [SyncError.ceilingExceeded (toRemoveOf C D).length C.length] ∧
    (syncTeamMembersCore env slug C D t).1.membersAdded =
      D.filter (fun d => !C.contains d && !env.addFails slug d) := by
  rw [syncTeamMembersCore_ceiling env slug C D t h]
  refine ⟨rfl, rfl, ?_, rfl⟩
  simp [List.filter_append, List.filter_map, Function.comp, SyncError.isCeiling]

/-- Witness for `syncTeamMembers_ceiling_abort` at a concrete input. -/
theorem syncTeamMembers_ceiling_abort_witness :
    (syncTeamMembersCore plainEnv "team" ["alice"] ["bob"] (mkRat 1 2)).1.membersRemoved = [] ∧
    (syncTeamMembersCore plainEnv "team" ["alice"] ["bob"] (mkRat 1 2)).1.membersSkippedExternal = [] ∧
    (syncTeamMembersCore plainEnv "team" ["alice"] ["bob"] (mkRat 1 2)).1.errors.filter
        SyncError.isCeiling =
      [SyncError.ceilingExceeded (toRemoveOf ["alice"] ["bob"]).length
        (["alice"] : List String).length] ∧
    (syncTeamMembersCore plainEnv "team" ["alice"] ["bob"] (mkRat 1 2)).1.membersAdded =
      (["bob"] : List String).filter
        (fun d => !(["alice"] : List String).contains d && !plainEnv.addFails "team" d) :=
  syncTeamMembers_ceiling_abort plainEnv "team" ["alice"] ["bob"] (mkRat 1 2) (by decide)

/-- C1 as stated is false on the code: at roster `[alice]`, desired
`[bob]`, threshold `1/2`, the ceiling fires yet `MembersAdded = [bob]` —
the add was already performed before the ceiling check. -/
theorem syncTeamMembers_ceiling_adds_not_withheld :
    ceilingTriggered ["alice"] ["bob"] (mkRat 1 2) ∧
    (syncTeamMembersCore plainEnv "team" ["alice"] ["bob"] (mkRat 1 2)).1.membersAdded = ["bob"] := by
  constructor
  · exact ⟨by decide, by decide⟩
  · decide

/-- C2 (amended): whenever the safety ceiling does not fire, every add of a
desired-but-absent member succeeds, and every member of `C \ D` passes the
outside-collaborator check as a removable insider and its removal succeeds,
the roster after `SyncTeamMembers` is exactly the desired set.  (The extra
condition on `C \ D` is forced: a skipped outside collaborator stays on the
roster.) -/
theorem syncTeamMembers_roster_eq_desired (env : GitHubEnv) (slug : String)
    (C D : List String) (t : ℚ)
    (hceil : ¬ceilingTriggered C D t)
    (hadd : ∀ d ∈ D, d ∉ C → env.addFails slug d = false)
    (hrem : ∀ u ∈ C, u ∉ D →
      env.extCheckFails u = false ∧ env.isExternal u = false ∧ env.removeFails slug u = false) :
    ∀ u, u ∈ (syncTeamMembersCore env slug C D t).2 ↔ u ∈ D := by
  intro u
  rw [syncTeamMembersCore_no_ceiling env slug C D t hceil]
  dsimp only
  rw [removeRosterFold_mem, addRosterFold_mem]
  constructor
  · rintro ⟨hin, hnot⟩
    by_contra huD
    rcases hin with huC0 | ⟨huD', _, _⟩
    · obtain ⟨hf, he, hr⟩ := hrem u huC0 huD
      apply hnot
      refine ⟨(toRemoveOf_mem C D u).mpr ⟨huC0, huD⟩, ?_, hr⟩
      simp [extCheck, hf, he]
    · exact huD huD'
  · intro huD
    constructor
    · by_cases huC : u ∈ C
      · exact Or.inl huC
      · refine Or.inr ⟨huD, ?_, hadd u huD huC⟩
        simpa using huC
    · rintro ⟨hmem, _, _⟩
      exact ((toRemoveOf_mem C D u).mp hmem).2 huD

/-- Witness for `syncTeamMembers_roster_eq_desired` at the spec's worked
example: roster `[a,b,c]`, desired `[b,c,d]`, threshold `1/2`. -/
theorem syncTeamMembers_roster_eq_desired_witness :
    "d" ∈ (syncTeamMembersCore plainEnv "team" ["a", "b", "c"] ["b", "c", "d"] (mkRat 1 2)).2 ↔
      "d" ∈ (["b", "c", "d"] : List String) :=
  syncTeamMembers_roster_eq_desired plainEnv "team" ["a", "b", "c"] ["b", "c", "d"] (mkRat 1 2)
    (by intro hc; exact absurd hc.2 (by decide)) (by decide) (by decide) "d"

/-- C2 as stated is false on the code: with roster `[a]`, desired `[b]`,
threshold `1`, no API call fails and the ceiling does not fire, yet the
outside collaborator `a` is skipped rather than removed, so the post-sync
roster is `[a, b] ≠ [b]`. -/
theorem syncTeamMembers_roster_keeps_external :
    (¬ceilingTriggered ["a"] ["b"] 1) ∧
    (syncTeamMembersCore extAEnv "team" ["a"] ["b"] 1).1.errors = [] ∧
    "a" ∈ (syncTeamMembersCore extAEnv "team" ["a"] ["b"] 1).2 ∧
    "a" ∉ (["b"] : List String) := by
  refine ⟨?_, by decide, by decide, by decide⟩
  rintro ⟨-, hgt⟩
  exact absurd hgt (by decide)

/-- C3 (amended): in every `TeamSyncResult`, removed members were current,
not desired, and not outside collaborators; added members were desired and
not current; an outside collaborator is never removed; and an outside
collaborator in `C \ D` is recorded as skipped provided the ceiling did not
fire and its collaborator-status check succeeded (under a ceiling abort, or
when that check errors, it appears in no list — this condition is forced). -/
theorem syncTeamMembers_invariants (env : GitHubEnv) (slug : String)
    (C D : List String) (t : ℚ) :
    (∀ u ∈ (syncTeamMembersCore env slug C D t).1.membersRemoved,
        u ∈ C ∧ u ∉ D ∧ env.isExternal u = false) ∧
    (∀ u ∈ (syncTeamMembersCore env slug C D t).1.membersAdded, u ∈ D ∧ u ∉ C) ∧
    (∀ u, env.isExternal u = true → u ∉ (syncTeamMembersCore env slug C D t).1.membersRemoved) ∧
    (∀ u ∈ C, u ∉ D → env.isExternal u = true → env.extCheckFails u = false →
      ¬ceilingTriggered C D t →
        u ∈ (syncTeamMembersCore env slug C D t).1.membersSkippedExternal) := by
  have hadded : ∀ u ∈ D.filter (fun d => !C.contains d && !env.addFails slug d),
      u ∈ D ∧ u ∉ C := by
    intro u hu
    rw [List.mem_filter] at hu
    refine ⟨hu.1, ?_⟩
    have := hu.2
    simp only [Bool.and_eq_true, Bool.not_eq_true'] at this
    simpa using this.1
  by_cases hc : ceilingTriggered C D t
  · rw [syncTeamMembersCore_ceiling env slug C D t hc]
    refine ⟨by simp, hadded, by simp, fun u _ _ _ _ hnc => absurd hc hnc⟩
  · rw [syncTeamMembersCore_no_ceiling env slug C D t hc]
    refine ⟨?_, hadded, ?_, ?_⟩
    · intro u hu
      rw [List.mem_filter] at hu
      obtain ⟨hmem, hcond⟩ := hu
      obtain ⟨huC, huD⟩ := (toRemoveOf_mem C D u).mp hmem
      simp only [Bool.and_eq_true, beq_iff_eq] at hcond
      refine ⟨huC, huD, ?_⟩
      have := hcond.1
      simp only [extCheck] at this
      by_cases hf : env.extCheckFails u = true
      · simp [hf] at this
      · simp only [Bool.not_eq_true] at hf
        simp only [hf, if_neg, Bool.false_eq_true] at this
        simpa using Option.some.inj this
    · intro u hext hu
      rw [List.mem_filter] at hu
      simp only [Bool.and_eq_true, beq_iff_eq] at hu
      have := hu.2.1
      simp only [extCheck] at this
      by_cases hf : env.extCheckFails u = true
      · simp [hf] at this
      · simp only [Bool.not_eq_true] at hf
        simp only [hf, Bool.false_eq_true, if_neg] at this
        have := Option.some.inj this
        rw [hext] at this
        exact Bool.true_eq_false.mp this
    · intro u huC huD hext hchk _
      rw [List.mem_filter]
      refine ⟨(toRemoveOf_mem C D u).mpr ⟨huC, huD⟩, ?_⟩
      simp [extCheck, hchk, hext]

/-- Witness for `syncTeamMembers_invariants`: with roster `[x, y]`, desired
`[y, z]` and the outside collaborator `x`, the theorem places `x` in the
skipped-external list. -/
theorem syncTeamMembers_invariants_witness :
    "a" ∈ (syncTeamMembersCore extAEnv "team" ["a", "y"] ["y", "z"] 1).1.membersSkippedExternal :=
  (syncTeamMembers_invariants extAEnv "team" ["a", "y"] ["y", "z"] 1).2.2.2 "a"
    (by decide) (by decide) (by decide) (by decide)
    (by rintro ⟨-, hgt⟩; exact absurd hgt (by decide))

/-- C3 as stated is false on the code: under a ceiling abort (roster `[a]`,
desired `[]`, threshold `1/2`, `a` an outside collaborator), `a` lies in
`C \ D` and is an outside collaborator yet appears nowhere in
`MembersSkippedExternal`. -/
theorem syncTeamMembers_external_not_skipped_on_abort :
    extAEnv.isExternal "a" = true ∧
    "a" ∈ (["a"] : List String) ∧ "a" ∉ ([] : List String) ∧
    ceilingTriggered ["a"] [] (mkRat 1 2) ∧
    "a" ∉ (syncTeamMembersCore extAEnv "team" ["a"] [] (mkRat 1 2)).1.membersSkippedExternal := by
  refine ⟨by decide, by decide, by decide, ⟨by decide, by decide⟩, by decide⟩

/-- C6: `computeTeamName` returns an explicitly configured team name
verbatim; otherwise it strips the configured prefix when present, prepends
the team prefix when present, lower-cases the result and replaces every
character outside `[a-z0-9-]` with a dash — in particular every character
of a derived name lies in `[a-z0-9-]`.  Being a Lean function of the group
name and the rule, it is pure and deterministic by construction. -/
theorem computeTeamName_spec (g : String) (rule : SyncRule) :
    (rule.githubTeamName ≠ "" → computeTeamName g rule = rule.githubTeamName) ∧
    (rule.githubTeamName = "" →
      computeTeamName g rule =
        sanitizeString (lowerString (rule.githubTeamPrefix ++ trimPrefix g rule.stripPrefix)) ∧
      ∀ c ∈ (computeTeamName g rule).data, isTeamNameChar c = true) := by
  constructor
  · intro h
    simp [computeTeamName, h]
  · intro h
    have hmain : computeTeamName g rule =
        sanitizeString (lowerString (rule.githubTeamPrefix ++ trimPrefix g rule.stripPrefix)) := by
      simp only [computeTeamName, h]
      by_cases hs : rule.stripPrefix = "" <;> by_cases hp : rule.githubTeamPrefix = "" <;>
        simp [hs, hp, trimPrefix]
    refine ⟨hmain, ?_⟩
    rw [hmain]
    intro c hc
    have hc' : c ∈ (lowerString (rule.githubTeamPrefix ++ trimPrefix g rule.stripPrefix)).data.map
        sanitizeChar := hc
    rw [List.mem_map] at hc'
    obtain ⟨a, -, ha⟩ := hc'
    rw [← ha]
    by_cases hta : isTeamNameChar a = true
    · simp [sanitizeChar, hta]
    · simp only [sanitizeChar, hta, Bool.false_eq_true, if_neg]
      rfl

/-- Witness for `computeTeamName_spec`: derivation branch at a concrete
rule and group name, together with the concrete value it produces. -/
theorem computeTeamName_spec_witness :
    computeTeamName "okta-Dev Team" ruleDerive =
      sanitizeString (lowerString ("gh-" ++ trimPrefix "okta-Dev Team" "okta-")) ∧
    computeTeamName "okta-Dev Team" ruleDerive = "gh-dev-team" :=
  ⟨((computeTeamName_spec "okta-Dev Team" ruleDerive).2 rfl).1, by decide⟩

section GroupMembersLemmas

theorem getGroupMembersLoop_eq (f : String) (users : List OktaUser) :
    ∀ acc : GroupMembersResult,
      getGroupMembersLoop f users acc =
        { members := acc.members ++
            users.filterMap (fun u => if isActive u then usernameOf f u else none),
          skippedNoGitHubUsername := acc.skippedNoGitHubUsername ++
            users.filterMap
              (fun u => if isActive u && (usernameOf f u).isNone then emailOf u else none) } := by
  induction users with
  | nil => intro acc; simp [getGroupMembersLoop]
  | cons user rest ih =>
    intro acc
    by_cases hs : user.status = "ACTIVE"
    · rcases hp : user.profile with _ | p
      · simp [getGroupMembersLoop, hs, hp, ih, isActive, usernameOf, emailOf]
      · rcases hg : profileGet p f with _ | v
        · rcases he : profileGet p "email" with _ | w
          · simp [getGroupMembersLoop, hs, hp, hg, he, ih, isActive, usernameOf, emailOf,
              trackByEmail]
          · rcases w with e | _
            · by_cases hee : e = ""
              · simp [getGroupMembersLoop, hs, hp, hg, he, hee, ih, isActive, usernameOf,
                  emailOf, trackByEmail]
              · simp [getGroupMembersLoop, hs, hp, hg, he, hee, ih, isActive, usernameOf,
                  emailOf, trackByEmail]
            · simp [getGroupMembersLoop, hs, hp, hg, he, ih, isActive, usernameOf, emailOf,
                trackByEmail]
        · rcases v with s | _
          · by_cases hse : s = ""
            · rcases he : profileGet p "email" with _ | w
              · simp [getGroupMembersLoop, hs, hp, hg, hse, he, ih, isActive, usernameOf,
                  emailOf, trackByEmail]
              · rcases w with e | _
                · by_cases hee : e = ""
                  · simp [getGroupMembersLoop, hs, hp, hg, hse, he, hee, ih, isActive,
                      usernameOf, emailOf, trackByEmail]
                  · simp [getGroupMembersLoop, hs, hp, hg, hse, he, hee, ih, isActive,
                      usernameOf, emailOf, trackByEmail]
                · simp [getGroupMembersLoop, hs, hp, hg, hse, he, ih, isActive, usernameOf,
                    emailOf, trackByEmail]
            · simp [getGroupMembersLoop, hs, hp, hg, hse, ih, isActive, usernameOf, emailOf]
          · rcases he : profileGet p "email" with _ | w
            · simp [getGroupMembersLoop, hs, hp, hg, he, ih, isActive, usernameOf, emailOf,
                trackByEmail]
            · rcases w with e | _
              · by_cases hee : e = ""
                · simp [getGroupMembersLoop, hs, hp, hg, he, hee, ih, isActive, usernameOf,
                    emailOf, trackByEmail]
                · simp [getGroupMembersLoop, hs, hp, hg, he, hee, ih, isActive, usernameOf,
                    emailOf, trackByEmail]
              · simp [getGroupMembersLoop, hs, hp, hg, he, ih, isActive, usernameOf, emailOf,
                  trackByEmail]
    · simp [getGroupMembersLoop, hs, ih, isActive]

end GroupMembersLemmas

/-- C9 (amended): `GetGroupMembers` returns, in order, the non-empty
GitHub usernames of the active users, and tracks by email exactly those
active users who lack a usable username but carry a non-empty string
email; active users with a nil profile, or with neither identifier, are
silently dropped from both lists (contrary to the claim as stated). -/
theorem getGroupMembers_tracking (f : String) (users : List OktaUser) :
    (getGroupMembers f users).members =
      users.filterMap (fun u => if isActive u then usernameOf f u else none) ∧
    (getGroupMembers f users).skippedNoGitHubUsername =
      users.filterMap
        (fun u => if isActive u && (usernameOf f u).isNone then emailOf u else none) := by
  rw [getGroupMembers, getGroupMembersLoop_eq]
  exact ⟨by simp, by simp⟩

/-- C9 as stated is false on the code: an `ACTIVE` user whose profile is
nil contributes to neither the member list nor the skipped list. -/
theorem getGroupMembers_drops_active_user :
    isActive ⟨"ACTIVE", none⟩ = true ∧
    getGroupMembers "github_username" [⟨"ACTIVE", none⟩] =
      { members := [], skippedNoGitHubUsername := [] } := by
  exact ⟨by decide, by decide⟩

section OrphanLemmas

theorem coveredFold_mem (env : GitHubEnv) (st : GitHubState) (teams : List String) :
    ∀ (acc : List String) (m : String),
      m ∈ coveredFold env st teams acc ↔
        m ∈ acc ∨ ∃ t ∈ teams, env.getTeamMembersFails t = false ∧ m ∈ st.roster t := by
  induction teams with
  | nil => intro acc m; simp [coveredFold]
  | cons t rest ih =>
    intro acc m
    by_cases hf : env.getTeamMembersFails t = true
    · have hgt : getTeamMembers env st t = none := by simp [getTeamMembers, hf]
      simp only [coveredFold, hgt]
      rw [ih]
      constructor
      · rintro (hm | ⟨t', ht', hcond⟩)
        · exact Or.inl hm
        · exact Or.inr ⟨t', List.mem_cons_of_mem _ ht', hcond⟩
      · rintro (hm | ⟨t', ht', hcond⟩)
        · exact Or.inl hm
        · rcases List.mem_cons.mp ht' with rfl | ht'
          · exact absurd hf (by simp [hcond.1])
          · exact Or.inr ⟨t', ht', hcond⟩
    · have hgt : getTeamMembers env st t = some (st.roster t) := by
        simp [getTeamMembers, hf]
      simp only [coveredFold, hgt]
      rw [ih]
      simp only [List.mem_append]
      constructor
      · rintro ((hm | hm) | ⟨t', ht', hcond⟩)
        · exact Or.inl hm
        · exact Or.inr ⟨t, List.mem_cons_self _ _,
            by simpa using hf, hm⟩
        · exact Or.inr ⟨t', List.mem_cons_of_mem _ ht', hcond⟩
      · rintro (hm | ⟨t', ht', hcond⟩)
        · exact Or.inl (Or.inl hm)
        · rcases List.mem_cons.mp ht' with rfl | ht'
          · exact Or.inl (Or.inr hcond.2)
          · exact Or.inr ⟨t', ht', hcond⟩

/-- Full characterization of `DetectOrphanedUsers` when the org-member
listing succeeds: the call never aborts, and a member is reported iff it
is uncovered and its collaborator check answers `false`. -/
theorem detectOrphanedUsers_characterization (env : GitHubEnv) (st : GitHubState)
    (teams : List String) (h : env.listOrgMembersFails = false) :
    detectOrphanedUsers env st teams =
      some { orphanedUsers := env.orgMembers.filter (fun m =>
        !(coveredFold env st teams []).contains m &&
          match extCheck env m with
          | none => false
          | some ext => !ext) } ∧
    ∀ m, m ∈ env.orgMembers.filter (fun m =>
        !(coveredFold env st teams []).contains m &&
          match extCheck env m with
          | none => false
          | some ext => !ext) ↔
      m ∈ env.orgMembers ∧
        ¬(∃ t ∈ teams, env.getTeamMembersFails t = false ∧ m ∈ st.roster t) ∧
        extCheck env m = some false := by
  constructor
  · simp [detectOrphanedUsers, h]
  · intro m
    rw [List.mem_filter]
    constructor
    · rintro ⟨hmem, hcond⟩
      simp only [Bool.and_eq_true, Bool.not_eq_true'] at hcond
      obtain ⟨hcov, hext⟩ := hcond
      refine ⟨hmem, ?_, ?_⟩
      · intro hex
        have : m ∈ coveredFold env st teams [] :=
          (coveredFold_mem env st teams [] m).mpr (Or.inr hex)
        simp [this] at hcov
      · rcases he : extCheck env m with _ | b
        · rw [he] at hext; exact absurd hext (by simp)
        · cases b
          · rfl
          · rw [he] at hext; exact absurd hext (by simp)
    · rintro ⟨hmem, hncov, hext⟩
      refine ⟨hmem, ?_⟩
      simp only [Bool.and_eq_true, Bool.not_eq_true']
      constructor
      · have : m ∉ coveredFold env st teams [] := by
          intro hc
          rcases (coveredFold_mem env st teams [] m).mp hc with hc | hc
          · simp at hc
          · exact hncov hc
        simpa using this
      · rw [hext]
        rfl

end OrphanLemmas

/-- C8 (amended): when the org-member listing succeeds,
`DetectOrphanedUsers` never aborts and reports a member orphaned iff the
member lies in no successfully fetched roster of the synced teams and its
outside-collaborator check succeeds with answer `false` (a member whose
check errors is excluded — this condition is forced); a failed roster
fetch only removes that one team from the covered set. -/
theorem detectOrphanedUsers_spec (env : GitHubEnv) (st : GitHubState)
    (teams : List String) (h : env.listOrgMembersFails = false) :
    ∃ report, detectOrphanedUsers env st teams = some report ∧
      ∀ m, m ∈ report.orphanedUsers ↔
        m ∈ env.orgMembers ∧
          ¬(∃ t ∈ teams, env.getTeamMembersFails t = false ∧ m ∈ st.roster t) ∧
          extCheck env m = some false := by
  obtain ⟨heq, hiff⟩ := detectOrphanedUsers_characterization env st teams h
  exact ⟨_, heq, hiff⟩

/-- Witness for `detectOrphanedUsers_spec` at a concrete environment. -/
theorem detectOrphanedUsers_spec_witness :
    ∃ report, detectOrphanedUsers orphanEnv stEmpty [] = some report ∧
      ∀ m, m ∈ report.orphanedUsers ↔
        m ∈ orphanEnv.orgMembers ∧
          ¬(∃ t ∈ ([] : List String),
              orphanEnv.getTeamMembersFails t = false ∧ m ∈ stEmpty.roster t) ∧
          extCheck orphanEnv m = some false :=
  detectOrphanedUsers_spec orphanEnv stEmpty [] (by decide)

/-- C8 as stated is false on the code: the org member `w` is covered by no
team and is not an outside collaborator, yet because its collaborator
check errors it is left out of the orphan report (which lists only `x`). -/
theorem detectOrphanedUsers_misses_member_on_check_error :
    orphanEnv.isExternal "w" = false ∧
    "w" ∈ orphanEnv.orgMembers ∧
    detectOrphanedUsers orphanEnv stEmpty [] =
      some { orphanedUsers := ["x"] } := by
  exact ⟨by decide, by decide, by decide⟩

/-- C10: when the outside-collaborator check errors for an uncovered
member, that member is silently excluded — it appears nowhere in the
orphan report (which carries no error field at all) — and detection
continues: every other member is judged exactly as usual. -/
theorem detectOrphanedUsers_check_error_skips (env : GitHubEnv) (st : GitHubState)
    (teams : List String) (m : String)
    (h : env.listOrgMembersFails = false)
    (hm : env.extCheckFails m = true) :
    ∃ report, detectOrphanedUsers env st teams = some report ∧
      m ∉ report.orphanedUsers ∧
      ∀ m', m' ∈ report.orphanedUsers ↔
        m' ∈ env.orgMembers ∧
          ¬(∃ t ∈ teams, env.getTeamMembersFails t = false ∧ m' ∈ st.roster t) ∧
          extCheck env m' = some false := by
  obtain ⟨heq, hiff⟩ := detectOrphanedUsers_characterization env st teams h
  refine ⟨_, heq, ?_, hiff⟩
  rw [hiff]
  rintro ⟨-, -, hck⟩
  rw [extCheck, if_pos hm] at hck
  exact Option.noConfusion hck

/-- Witness for `detectOrphanedUsers_check_error_skips` at the member `w`
of `orphanEnv`. -/
theorem detectOrphanedUsers_check_error_skips_witness :
    ∃ report, detectOrphanedUsers orphanEnv stEmpty [] = some report ∧
      "w" ∉ report.orphanedUsers ∧
      ∀ m', m' ∈ report.orphanedUsers ↔
        m' ∈ orphanEnv.orgMembers ∧
          ¬(∃ t ∈ ([] : List String),
              orphanEnv.getTeamMembersFails t = false ∧ m' ∈ stEmpty.roster t) ∧
          extCheck orphanEnv m' = some false :=
  detectOrphanedUsers_check_error_skips orphanEnv stEmpty [] "w" (by decide) (by decide)

section SyncAggregationLemmas

variable (oenv : OktaEnv) (genv : GitHubEnv) (thr : ℚ)

theorem pairsRun_length (rule : SyncRule) (gs : List GroupInfo) :
    ∀ st, (pairsRun genv thr rule gs st).1.length = gs.length := by
  induction gs with
  | nil => intro st; simp [pairsRun]
  | cons g rest ih => intro st; simp [pairsRun, ih]

theorem syncLoop_stats (rules : List SyncRule) :
    ∀ (reports : List SyncReport) (failed : Nat) (st : GitHubState),
      (syncLoop oenv genv thr rules (reports, failed, st)).2.1 =
        failed + enabledFailCount oenv rules ∧
      (syncLoop oenv genv thr rules (reports, failed, st)).1.length =
        reports.length + (enabledFailCount oenv rules + enabledGroupCount oenv rules) := by
  induction rules with
  | nil =>
    intro reports failed st
    simp [syncLoop, enabledFailCount, enabledGroupCount]
  | cons r rest ih =>
    intro reports failed st
    by_cases he : r.isEnabled = true
    · rcases hx : expandRule oenv r with e | gs
      · have hrf : ruleFails oenv r = true := by simp [ruleFails, hx]
        have hstep : syncLoop oenv genv thr (r :: rest) (reports, failed, st) =
            syncLoop oenv genv thr rest (reports ++ [failedReport r e], failed + 1, st) := by
          simp [syncLoop, he, syncRule, hx]
        obtain ⟨ih1, ih2⟩ := ih (reports ++ [failedReport r e]) (failed + 1) st
        have hfc : enabledFailCount oenv (r :: rest) = enabledFailCount oenv rest + 1 := by
          simp [enabledFailCount, List.filter_cons, he, hrf]
        have hgc : enabledGroupCount oenv (r :: rest) = enabledGroupCount oenv rest := by
          simp [enabledGroupCount, List.filter_cons, he, hrf]
        rw [hstep]
        refine ⟨by rw [ih1, hfc]; omega, by rw [ih2, hfc, hgc]; simp; omega⟩
      · have hrf : ruleFails oenv r = false := by simp [ruleFails, hx]
        have hstep : syncLoop oenv genv thr (r :: rest) (reports, failed, st) =
            syncLoop oenv genv thr rest
              (reports ++ (pairsRun genv thr r gs st).1, failed, (pairsRun genv thr r gs st).2) := by
          simp [syncLoop, he, syncRule, hx]
        obtain ⟨ih1, ih2⟩ :=
          ih (reports ++ (pairsRun genv thr r gs st).1) failed (pairsRun genv thr r gs st).2
        have hfc : enabledFailCount oenv (r :: rest) = enabledFailCount oenv rest := by
          simp [enabledFailCount, List.filter_cons, he, hrf]
        have hgc : enabledGroupCount oenv (r :: rest) =
            gs.length + enabledGroupCount oenv rest := by
          simp [enabledGroupCount, List.filter_cons, he, hrf, expandedGroups, hx]
        rw [hstep]
        refine ⟨by rw [ih1, hfc], ?_⟩
        rw [ih2, hfc, hgc]
        simp [pairsRun_length]
        omega
    · have he' : r.isEnabled = false := by simpa using he
      have hstep : syncLoop oenv genv thr (r :: rest) (reports, failed, st) =
          syncLoop oenv genv thr rest (reports, failed, st) := by
        simp [syncLoop, he']
      have hfc : enabledFailCount oenv (r :: rest) = enabledFailCount oenv rest := by
        simp [enabledFailCount, List.filter_cons, he']
      have hgc : enabledGroupCount oenv (r :: rest) = enabledGroupCount oenv rest := by
        simp [enabledGroupCount, List.filter_cons, he']
      rw [hstep, hfc, hgc]
      exact ih reports failed st

theorem enabledFailCount_pos_iff (rules : List SyncRule) :
    0 < enabledFailCount oenv rules ↔
      ∃ r ∈ rules, r.isEnabled = true ∧ ruleFails oenv r = true := by
  rw [enabledFailCount, List.length_pos_iff_exists_mem]
  simp [List.mem_filter]

theorem enabledGroupCount_zero_iff (rules : List SyncRule) :
    enabledGroupCount oenv rules = 0 ↔
      ∀ r ∈ rules, r.isEnabled = true → ruleFails oenv r = false →
        expandedGroups oenv r = [] := by
  rw [enabledGroupCount, List.sum_eq_zero_iff]
  constructor
  · intro h r hr he hf
    have := h (expandedGroups oenv r).length
      (List.mem_map_of_mem _ (List.mem_filter.mpr ⟨hr, by simp [he, hf]⟩))
    exact List.length_eq_zero.mp this
  · intro h n hn
    rw [List.mem_map] at hn
    obtain ⟨r, hr, rfl⟩ := hn
    rw [List.mem_filter] at hr
    obtain ⟨hr, hcond⟩ := hr
    simp only [Bool.and_eq_true, Bool.not_eq_true'] at hcond
    rw [h r hr hcond.1 hcond.2]
    rfl

end SyncAggregationLemmas

/-- C4 (amended): `Sync` returns the aggregate `all sync rules failed`
error exactly when at least one enabled rule failed and every enabled rule
that did not fail expanded to zero groups — equivalently, when the failure
count equals the report count.  A successful rule that yields no report
(empty selector, pattern matching nothing) does not prevent the aggregate
error, so the error can occur even though not every enabled rule failed. -/
theorem sync_error_iff (oenv : OktaEnv) (genv : GitHubEnv) (thr : ℚ)
    (rules : List SyncRule) (st : GitHubState) :
    (∃ n, (sync oenv genv thr rules st).1 = Except.error n) ↔
      ((∃ r ∈ rules, r.isEnabled = true ∧ ruleFails oenv r = true) ∧
       (∀ r ∈ rules, r.isEnabled = true → ruleFails oenv r = false →
          expandedGroups oenv r = [])) := by
  obtain ⟨h1, h2⟩ := syncLoop_stats oenv genv thr rules [] 0 st
  rw [← enabledFailCount_pos_iff oenv rules, ← enabledGroupCount_zero_iff oenv rules]
  by_cases hcond : 0 < (syncLoop oenv genv thr rules ([], 0, st)).2.1 ∧
      (syncLoop oenv genv thr rules ([], 0, st)).2.1 =
        (syncLoop oenv genv thr rules ([], 0, st)).1.length
  · rw [h1, h2] at hcond
    simp only [List.length_nil, Nat.zero_add] at hcond
    constructor
    · intro _
      exact ⟨hcond.1, by omega⟩
    · intro _
      refine ⟨(syncLoop oenv genv thr rules ([], 0, st)).2.1, ?_⟩
      simp only [sync]
      rw [if_pos ?_]
      rw [h1, h2]
      simp only [List.length_nil, Nat.zero_add]
      exact ⟨hcond.1, by omega⟩
  · rw [h1, h2] at hcond
    simp only [List.length_nil, Nat.zero_add] at hcond
    constructor
    · rintro ⟨n, hn⟩
      exfalso
      simp only [sync] at hn
      rw [if_neg ?_] at hn
      · exact Except.noConfusion hn
      · intro hc
        rw [h1, h2] at hc
        simp only [List.length_nil, Nat.zero_add] at hc
        exact hcond hc
    · rintro ⟨hpos, hzero⟩
      exact absurd ⟨hpos, by omega⟩ hcond

/-- C4 as stated is false on the code: with one rule whose group is
missing and one enabled selector-less rule that succeeds with zero
reports, `Sync` still returns the aggregate error — not every enabled rule
failed. -/
theorem sync_error_despite_successful_rule :
    (sync oenvEmptyDir plainEnv 1 [ruleMissing, ruleInert] stEmpty).1 = Except.error 1 ∧
    ruleInert.isEnabled = true ∧ ruleFails oenvEmptyDir ruleInert = false := by
  exact ⟨by decide, by decide, by decide⟩

/-- C5: the code never reads `createTeamIfMissing` — at a missing team
`t` with the flag false, `syncGroupToTeam` creates the team anyway and
reports no error, where the claim (and spec §7) demands a not-found
failure with no team created. -/
theorem syncGroupToTeam_creates_despite_flag :
    ruleNoCreate.createTeamIfMissing = false ∧
    stEmpty.teams.contains "t" = false ∧
    (syncGroupToTeam plainEnv 1 stEmpty ruleNoCreate groupG "t").2.teams = ["t"] ∧
    (syncGroupToTeam plainEnv 1 stEmpty ruleNoCreate groupG "t").1.errors = [] := by
  exact ⟨rfl, by decide, by decide, by decide⟩

section IdempotenceCoreLemmas

variable (env : GitHubEnv) (slug : String)

theorem addRosterFold_id (cur : List String) (ds : List String) :
    ∀ roster, (∀ d ∈ ds, (!cur.contains d && !env.addFails slug d) = false) →
      addRosterFold env slug cur roster ds = roster := by
  induction ds with
  | nil => intro roster _; rfl
  | cons d rest ih =>
    intro roster h
    have hd := h d (List.mem_cons_self _ _)
    simp only [addRosterFold, hd, Bool.false_eq_true, if_neg, not_false_eq_true]
    exact ih roster fun x hx => h x (List.mem_cons_of_mem _ hx)

theorem removeRosterFold_id (us : List String) :
    ∀ roster, (∀ u ∈ us, (extCheck env u == some false && !env.removeFails slug u) = false) →
      removeRosterFold env slug roster us = roster := by
  induction us with
  | nil => intro roster _; rfl
  | cons u rest ih =>
    intro roster h
    have hu := h u (List.mem_cons_self _ _)
    simp only [removeRosterFold, hu, Bool.false_eq_true, if_neg, not_false_eq_true]
    exact ih roster fun x hx => h x (List.mem_cons_of_mem _ hx)

theorem ceiling_mem_of_triggered (C D : List String) (t : ℚ) (h : ceilingTriggered C D t) :
    ∃ e ∈ (syncTeamMembersCore env slug C D t).1.errors, e.isCeiling = true := by
  rw [syncTeamMembersCore_ceiling env slug C D t h]
  exact ⟨SyncError.ceilingExceeded (toRemoveOf C D).length C.length, by simp, rfl⟩

theorem core_no_ceiling_roster_mem (C D : List String) (t : ℚ)
    (h : ¬ceilingTriggered C D t) (u : String) :
    u ∈ (syncTeamMembersCore env slug C D t).2 ↔
      (u ∈ C ∨ (u ∈ D ∧ C.contains u = false ∧ env.addFails slug u = false)) ∧
      ¬(u ∈ toRemoveOf C D ∧ extCheck env u = some false ∧
        env.removeFails slug u = false) := by
  rw [syncTeamMembersCore_no_ceiling env slug C D t h]
  dsimp only
  rw [removeRosterFold_mem, addRosterFold_mem]

theorem core_facts_for_second (C D : List String) (t : ℚ) (h : ¬ceilingTriggered C D t) :
    (∀ d ∈ D, d ∉ (syncTeamMembersCore env slug C D t).2 → env.addFails slug d = true) ∧
    (∀ u ∈ (syncTeamMembersCore env slug C D t).2, u ∉ D →
      ¬(extCheck env u = some false ∧ env.removeFails slug u = false)) := by
  constructor
  · intro d hd hnot
    by_contra haf
    apply hnot
    rw [core_no_ceiling_roster_mem env slug C D t h d]
    constructor
    · by_cases hdC : d ∈ C
      · exact Or.inl hdC
      · exact Or.inr ⟨hd, by simpa using hdC, by simpa using haf⟩
    · rintro ⟨hmem, -, -⟩
      exact ((toRemoveOf_mem C D d).mp hmem).2 hd
  · intro u hu hnD
    rw [core_no_ceiling_roster_mem env slug C D t h u] at hu
    obtain ⟨hin, hnot⟩ := hu
    rintro ⟨hext, hrf⟩
    apply hnot
    rcases hin with huC | ⟨huD, -, -⟩
    · exact ⟨(toRemoveOf_mem C D u).mpr ⟨huC, hnD⟩, hext, hrf⟩
    · exact absurd huD hnD

theorem core_noop (R D : List String) (t : ℚ)
    (hadd : ∀ d ∈ D, d ∉ R → env.addFails slug d = true)
    (hrem : ∀ u ∈ R, u ∉ D → ¬(extCheck env u = some false ∧ env.removeFails slug u = false)) :
    (syncTeamMembersCore env slug R D t).1.membersAdded = [] ∧
    (syncTeamMembersCore env slug R D t).1.membersRemoved = [] ∧
    (syncTeamMembersCore env slug R D t).2 = R := by
  have haddcond : ∀ d ∈ D, (!R.contains d && !env.addFails slug d) = false := by
    intro d hd
    by_cases hdR : d ∈ R
    · simp [hdR]
    · simp [hdR, hadd d hd hdR]
  have hremcond : ∀ u ∈ toRemoveOf R D,
      (extCheck env u == some false && !env.removeFails slug u) = false := by
    intro u hu
    obtain ⟨huR, hnD⟩ := (toRemoveOf_mem R D u).mp hu
    have := hrem u huR hnD
    rcases he : extCheck env u with _ | b
    · simp [he]
    · cases b
      · by_cases hf : env.removeFails slug u = true
        · simp [hf]
        · exact absurd ⟨he, by simpa using hf⟩ this
      · simp [he]
  have haddfilter : D.filter (fun d => !R.contains d && !env.addFails slug d) = [] :=
    List.filter_eq_nil_iff.mpr (fun d hd => by rw [haddcond d hd]; simp)
  have hremfilter : (toRemoveOf R D).filter
      (fun u => extCheck env u == some false && !env.removeFails slug u) = [] :=
    List.filter_eq_nil_iff.mpr (fun u hu => by rw [hremcond u hu]; simp)
  have haddfold : addRosterFold env slug R R D = R := addRosterFold_id env slug R D R haddcond
  by_cases hc : ceilingTriggered R D t
  · rw [syncTeamMembersCore_ceiling env slug R D t hc]
    exact ⟨haddfilter, rfl, haddfold⟩
  · rw [syncTeamMembersCore_no_ceiling env slug R D t hc]
    refine ⟨haddfilter, hremfilter, ?_⟩
    dsimp only
    rw [haddfold]
    exact removeRosterFold_id env slug (toRemoveOf R D) R hremcond

end IdempotenceCoreLemmas

section PairLemmas

variable (env : GitHubEnv) (thr : ℚ) (rule : SyncRule) (g : GroupInfo) (tn : String)

theorem syncGroupToTeam_frame (st : GitHubState) :
    (∀ x, x ≠ tn → (syncGroupToTeam env thr st rule g tn).2.roster x = st.roster x) ∧
    ((syncGroupToTeam env thr st rule g tn).2.teams = st.teams ∨
      (syncGroupToTeam env thr st rule g tn).2.teams = tn :: st.teams) := by
  by_cases hA : env.getTeamBySlugFails tn = true
  · simp [syncGroupToTeam, getOrCreateTeam, hA]
  · have hA' : env.getTeamBySlugFails tn = false := by simpa using hA
    by_cases hB : tn ∈ st.teams
    · by_cases hS : rule.shouldSyncMembers = true
      · by_cases hM : env.getTeamMembersFails tn = true
        · simp [syncGroupToTeam, getOrCreateTeam, hA', hB, hS, syncTeamMembers,
            getTeamMembers, hM]
        · have hM' : env.getTeamMembersFails tn = false := by simpa using hM
          constructor
          · intro x hx
            simp [syncGroupToTeam, getOrCreateTeam, hA', hB, hS, syncTeamMembers,
              getTeamMembers, hM', setRoster, hx]
          · left
            simp [syncGroupToTeam, getOrCreateTeam, hA', hB, hS, syncTeamMembers,
              getTeamMembers, hM', setRoster]
      · have hS' : rule.shouldSyncMembers = false := by simpa using hS
        simp [syncGroupToTeam, getOrCreateTeam, hA', hB, hS']
    · have hB' : tn ∉ st.teams := hB
      by_cases hC : env.createTeamFails tn = true
      · simp [syncGroupToTeam, getOrCreateTeam, hA', hB', hC]
      · have hC' : env.createTeamFails tn = false := by simpa using hC
        by_cases hS : rule.shouldSyncMembers = true
        · by_cases hM : env.getTeamMembersFails tn = true
          · constructor
            · intro x hx
              simp [syncGroupToTeam, getOrCreateTeam, hA', hB', hC', hS, syncTeamMembers,
                getTeamMembers, hM, hx]
            · right
              simp [syncGroupToTeam, getOrCreateTeam, hA', hB', hC', hS, syncTeamMembers,
                getTeamMembers, hM]
          · have hM' : env.getTeamMembersFails tn = false := by simpa using hM
            constructor
            · intro x hx
              simp [syncGroupToTeam, getOrCreateTeam, hA', hB', hC', hS, syncTeamMembers,
                getTeamMembers, hM', setRoster, hx]
            · right
              simp [syncGroupToTeam, getOrCreateTeam, hA', hB', hC', hS, syncTeamMembers,
                getTeamMembers, hM', setRoster]
        · have hS' : rule.shouldSyncMembers = false := by simpa using hS
          constructor
          · intro x hx
            simp [syncGroupToTeam, getOrCreateTeam, hA', hB', hC', hS', hx]
          · right
            simp [syncGroupToTeam, getOrCreateTeam, hA', hB', hC', hS']

theorem syncGroupToTeam_contains_tn (st : GitHubState)
    (hA : env.getTeamBySlugFails tn = false) (hC : env.createTeamFails tn = false) :
    (syncGroupToTeam env thr st rule g tn).2.teams.contains tn = true := by
  by_cases hB : tn ∈ st.teams
  · rcases (syncGroupToTeam_frame env thr rule g tn st).2 with h | h <;> rw [h]
    · simpa using hB
    · simp
  · have hB' : tn ∉ st.teams := hB
    by_cases hS : rule.shouldSyncMembers = true
    · by_cases hM : env.getTeamMembersFails tn = true
      · simp [syncGroupToTeam, getOrCreateTeam, hA, hB', hC, hS, syncTeamMembers,
          getTeamMembers, hM]
      · have hM' : env.getTeamMembersFails tn = false := by simpa using hM
        simp [syncGroupToTeam, getOrCreateTeam, hA, hB', hC, hS, syncTeamMembers,
          getTeamMembers, hM', setRoster]
    · have hS' : rule.shouldSyncMembers = false := by simpa using hS
      simp [syncGroupToTeam, getOrCreateTeam, hA, hB', hC, hS']

/-- Second-run no-op: if one pair's run produced no ceiling error, then
re-running the same pair from any state agreeing with the first run's
post-state on that team leaves the state untouched and reports no added
or removed members. -/
theorem syncGroupToTeam_noop (S T : GitHubState)
    (hnoceil : ∀ e ∈ (syncGroupToTeam env thr S rule g tn).1.errors, e.isCeiling = false)
    (hTteams : T.teams.contains tn = (syncGroupToTeam env thr S rule g tn).2.teams.contains tn)
    (hTroster : T.roster tn = (syncGroupToTeam env thr S rule g tn).2.roster tn) :
    (syncGroupToTeam env thr T rule g tn).1.membersAdded = [] ∧
    (syncGroupToTeam env thr T rule g tn).1.membersRemoved = [] ∧
    (syncGroupToTeam env thr T rule g tn).2.teams = T.teams ∧
    (∀ x, (syncGroupToTeam env thr T rule g tn).2.roster x = T.roster x) := by
  by_cases hA : env.getTeamBySlugFails tn = true
  · simp [syncGroupToTeam, getOrCreateTeam, hA, reportInit]
  · have hA' : env.getTeamBySlugFails tn = false := by simpa using hA
    by_cases hBTm : tn ∈ T.teams
    · have hBT : T.teams.contains tn = true := by simpa using hBTm
      have hgoc2 : ∀ priv, getOrCreateTeam env T tn priv = (some tn, T) := by
        intro priv
        simp [getOrCreateTeam, hA', hBTm]
      by_cases hS : rule.shouldSyncMembers = true
      · by_cases hM : env.getTeamMembersFails tn = true
        · simp [syncGroupToTeam, hgoc2, hS, syncTeamMembers, getTeamMembers, hM, reportInit]
        · have hM' : env.getTeamMembersFails tn = false := by simpa using hM
          have hex : ∃ C1,
              (syncGroupToTeam env thr S rule g tn).2.roster tn =
                (syncTeamMembersCore env tn C1 g.members thr).2 ∧
              (syncGroupToTeam env thr S rule g tn).1.errors =
                (syncTeamMembersCore env tn C1 g.members thr).1.errors := by
            by_cases hBS : tn ∈ S.teams
            · refine ⟨S.roster tn, ?_, ?_⟩
              · simp [syncGroupToTeam, getOrCreateTeam, hA', hBS, hS, syncTeamMembers,
                  getTeamMembers, hM', setRoster]
              · simp [syncGroupToTeam, getOrCreateTeam, hA', hBS, hS, syncTeamMembers,
                  getTeamMembers, hM', reportInit]
            · have hBS' : tn ∉ S.teams := hBS
              by_cases hC : env.createTeamFails tn = true
              · exfalso
                have hfalse : (syncGroupToTeam env thr S rule g tn).2.teams.contains tn =
                    false := by
                  simp [syncGroupToTeam, getOrCreateTeam, hA', hBS', hC]
                rw [hTteams, hfalse] at hBT
                exact Bool.noConfusion hBT
              · have hC' : env.createTeamFails tn = false := by simpa using hC
                refine ⟨[], ?_, ?_⟩
                · simp [syncGroupToTeam, getOrCreateTeam, hA', hBS', hC', hS,
                    syncTeamMembers, getTeamMembers, hM', setRoster]
                · simp [syncGroupToTeam, getOrCreateTeam, hA', hBS', hC', hS,
                    syncTeamMembers, getTeamMembers, hM', reportInit]
          obtain ⟨C1, h1, herr⟩ := hex
          have hnc : ¬ceilingTriggered C1 g.members thr := by
            intro hct
            obtain ⟨e, he, hce⟩ := ceiling_mem_of_triggered env tn C1 g.members thr hct
            have h := hnoceil e (by rw [herr]; exact he)
            rw [hce] at h
            exact Bool.noConfusion h
          obtain ⟨hadd, hrem⟩ := core_facts_for_second env tn C1 g.members thr hnc
          have hTr : T.roster tn = (syncTeamMembersCore env tn C1 g.members thr).2 := by
            rw [hTroster, h1]
          have hadd' : ∀ d ∈ g.members, d ∉ T.roster tn → env.addFails tn d = true := by
            rw [hTr]; exact hadd
          have hrem' : ∀ u ∈ T.roster tn, u ∉ g.members →
              ¬(extCheck env u = some false ∧ env.removeFails tn u = false) := by
            rw [hTr]; exact hrem
          obtain ⟨hc1, hc2, hc3⟩ := core_noop env tn (T.roster tn) g.members thr hadd' hrem'
          have hrun2 : syncTeamMembers env T tn g.members thr =
              (some (syncTeamMembersCore env tn (T.roster tn) g.members thr).1,
                setRoster T tn (syncTeamMembersCore env tn (T.roster tn) g.members thr).2) := by
            simp [syncTeamMembers, getTeamMembers, hM']
          refine ⟨?_, ?_, ?_, ?_⟩
          · simp [syncGroupToTeam, hgoc2, hS, hrun2, reportInit, hc1]
          · simp [syncGroupToTeam, hgoc2, hS, hrun2, reportInit, hc2]
          · simp [syncGroupToTeam, hgoc2, hS, hrun2, setRoster]
          · intro x
            by_cases hx : x = tn
            · subst hx
              simp [syncGroupToTeam, hgoc2, hS, hrun2, setRoster, hc3]
            · simp [syncGroupToTeam, hgoc2, hS, hrun2, setRoster, hx]
      · have hS' : rule.shouldSyncMembers = false := by simpa using hS
        simp [syncGroupToTeam, hgoc2, hS', reportInit]
    · have hBT' : T.teams.contains tn = false := by simpa using hBTm
      by_cases hC : env.createTeamFails tn = true
      · have hgoc2 : ∀ priv, getOrCreateTeam env T tn priv = (none, T) := by
          intro priv
          simp [getOrCreateTeam, hA', hBTm, hC]
        simp [syncGroupToTeam, hgoc2, reportInit]
      · exfalso
        have hC' : env.createTeamFails tn = false := by simpa using hC
        have hc1 := syncGroupToTeam_contains_tn env thr rule g tn S hA' hC'
        rw [hTteams, hc1] at hBT'
        exact Bool.noConfusion hBT'

end PairLemmas

section RunLemmas

variable (oenv : OktaEnv) (genv : GitHubEnv) (thr : ℚ)

theorem pairsRun_eq_pairsRunAll (rule : SyncRule) (gs : List GroupInfo) :
    ∀ st, pairsRun genv thr rule gs st =
      pairsRunAll genv thr (gs.map (fun g => (rule, g))) st := by
  induction gs with
  | nil => intro st; rfl
  | cons g rest ih =>
    intro st
    simp only [pairsRun, pairsRunAll, List.map_cons, teamOfPair, ih]

theorem pairsRunAll_append (ps qs : List (SyncRule × GroupInfo)) :
    ∀ st, pairsRunAll genv thr (ps ++ qs) st =
      ((pairsRunAll genv thr ps st).1 ++
          (pairsRunAll genv thr qs (pairsRunAll genv thr ps st).2).1,
        (pairsRunAll genv thr qs (pairsRunAll genv thr ps st).2).2) := by
  induction ps with
  | nil => intro st; simp [pairsRunAll]
  | cons p rest ih =>
    intro st
    simp only [List.cons_append, pairsRunAll, ih, List.append_eq]

theorem pairsRunAll_frame (ps : List (SyncRule × GroupInfo)) :
    ∀ (S : GitHubState) (x : String), x ∉ ps.map teamOfPair →
      (pairsRunAll genv thr ps S).2.roster x = S.roster x ∧
      (pairsRunAll genv thr ps S).2.teams.contains x = S.teams.contains x := by
  induction ps with
  | nil => intro S x _; exact ⟨rfl, rfl⟩
  | cons p rest ih =>
    intro S x hx
    simp only [List.map_cons, List.mem_cons, not_or] at hx
    obtain ⟨hx1, hx2⟩ := hx
    obtain ⟨ihr, iht⟩ :=
      ih (syncGroupToTeam genv thr S p.1 p.2 (teamOfPair p)).2 x hx2
    obtain ⟨fr, ft⟩ := syncGroupToTeam_frame genv thr p.1 p.2 (teamOfPair p) S
    refine ⟨?_, ?_⟩
    · show (pairsRunAll genv thr rest (syncGroupToTeam genv thr S p.1 p.2
          (teamOfPair p)).2).2.roster x = S.roster x
      rw [ihr, fr x hx1]
    · show (pairsRunAll genv thr rest (syncGroupToTeam genv thr S p.1 p.2
          (teamOfPair p)).2).2.teams.contains x = S.teams.contains x
      rw [iht]
      rcases ft with h | h <;> rw [h]
      simp [hx1]

/-- Pair-level idempotence: a second pass over the same pair list, from a
state agreeing with the first pass's final state, reports no membership
change and leaves the state unchanged, provided the first pass hit no
safety ceiling and no two pairs share a team name. -/
theorem pairsRunAll_idem (ps : List (SyncRule × GroupInfo)) :
    ∀ (S T : GitHubState),
      (ps.map teamOfPair).Nodup →
      (∀ rep ∈ (pairsRunAll genv thr ps S).1, ∀ e ∈ rep.errors, e.isCeiling = false) →
      T.teams = (pairsRunAll genv thr ps S).2.teams →
      (∀ x, T.roster x = (pairsRunAll genv thr ps S).2.roster x) →
      (∀ rep ∈ (pairsRunAll genv thr ps T).1,
        rep.membersAdded = [] ∧ rep.membersRemoved = []) ∧
      (pairsRunAll genv thr ps T).2.teams = T.teams ∧
      (∀ x, (pairsRunAll genv thr ps T).2.roster x = T.roster x) := by
  induction ps with
  | nil =>
    intro S T _ _ _ _
    exact ⟨by simp [pairsRunAll], rfl, fun x => rfl⟩
  | cons p rest ih =>
    intro S T hnd hnc hTt hTr
    have hnds : teamOfPair p ∉ rest.map teamOfPair ∧ (rest.map teamOfPair).Nodup := by
      rw [List.map_cons, List.nodup_cons] at hnd
      exact hnd
    have hTt' : T.teams =
        (pairsRunAll genv thr rest (syncGroupToTeam genv thr S p.1 p.2
          (teamOfPair p)).2).2.teams := hTt
    have hTr' : ∀ x, T.roster x =
        (pairsRunAll genv thr rest (syncGroupToTeam genv thr S p.1 p.2
          (teamOfPair p)).2).2.roster x := hTr
    have hnc1 : ∀ e ∈ (syncGroupToTeam genv thr S p.1 p.2 (teamOfPair p)).1.errors,
        e.isCeiling = false :=
      hnc _ (by simp only [pairsRunAll]; exact List.mem_cons_self _ _)
    have hnc' : ∀ rep ∈ (pairsRunAll genv thr rest (syncGroupToTeam genv thr S p.1 p.2
        (teamOfPair p)).2).1, ∀ e ∈ rep.errors, e.isCeiling = false := by
      intro rep hrep
      exact hnc rep (by simp only [pairsRunAll]; exact List.mem_cons_of_mem _ hrep)
    obtain ⟨hfr, hft⟩ := pairsRunAll_frame genv thr rest
      (syncGroupToTeam genv thr S p.1 p.2 (teamOfPair p)).2 (teamOfPair p) hnds.1
    have h1 : T.teams.contains (teamOfPair p) =
        (syncGroupToTeam genv thr S p.1 p.2 (teamOfPair p)).2.teams.contains
          (teamOfPair p) := by
      rw [hTt', hft]
    have h2 : T.roster (teamOfPair p) =
        (syncGroupToTeam genv thr S p.1 p.2 (teamOfPair p)).2.roster (teamOfPair p) := by
      rw [hTr' (teamOfPair p), hfr]
    obtain ⟨hadded, hremoved, hteams2, hroster2⟩ :=
      syncGroupToTeam_noop genv thr p.1 p.2 (teamOfPair p) S T hnc1 h1 h2
    have hT't : (syncGroupToTeam genv thr T p.1 p.2 (teamOfPair p)).2.teams =
        (pairsRunAll genv thr rest (syncGroupToTeam genv thr S p.1 p.2
          (teamOfPair p)).2).2.teams := by
      rw [hteams2, hTt']
    have hT'r : ∀ x, (syncGroupToTeam genv thr T p.1 p.2 (teamOfPair p)).2.roster x =
        (pairsRunAll genv thr rest (syncGroupToTeam genv thr S p.1 p.2
          (teamOfPair p)).2).2.roster x := by
      intro x
      rw [hroster2 x, hTr' x]
    obtain ⟨ihrep, ihteams, ihroster⟩ :=
      ih (syncGroupToTeam genv thr S p.1 p.2 (teamOfPair p)).2
        (syncGroupToTeam genv thr T p.1 p.2 (teamOfPair p)).2 hnds.2 hnc' hT't hT'r
    refine ⟨?_, ?_, ?_⟩
    · intro rep hrep
      simp only [pairsRunAll] at hrep
      rcases List.mem_cons.mp hrep with rfl | h
      · exact ⟨hadded, hremoved⟩
      · exact ihrep rep h
    · show (pairsRunAll genv thr rest
          (syncGroupToTeam genv thr T p.1 p.2 (teamOfPair p)).2).2.teams = T.teams
      rw [ihteams, hteams2]
    · intro x
      show (pairsRunAll genv thr rest
          (syncGroupToTeam genv thr T p.1 p.2 (teamOfPair p)).2).2.roster x = T.roster x
      rw [ihroster x, hroster2 x]

theorem syncLoop_state (rules : List SyncRule) :
    ∀ (reports : List SyncReport) (failed : Nat) (st : GitHubState),
      (syncLoop oenv genv thr rules (reports, failed, st)).2.2 =
        (pairsRunAll genv thr (allPairs oenv rules) st).2 := by
  induction rules with
  | nil => intro reports failed st; simp [syncLoop, allPairs, pairsRunAll]
  | cons r rest ih =>
    intro reports failed st
    by_cases he : r.isEnabled = true
    · rcases hx : expandRule oenv r with e | gs
      · have hrp : enabledRulePairs oenv r = [] := by
          simp [enabledRulePairs, he, expandedGroups, hx]
        have hstep : syncLoop oenv genv thr (r :: rest) (reports, failed, st) =
            syncLoop oenv genv thr rest (reports ++ [failedReport r e], failed + 1, st) := by
          simp [syncLoop, he, syncRule, hx]
        rw [hstep, ih]
        simp [allPairs, hrp]
      · have hrp : enabledRulePairs oenv r = gs.map (fun g => (r, g)) := by
          simp [enabledRulePairs, he, expandedGroups, hx]
        have hstep : syncLoop oenv genv thr (r :: rest) (reports, failed, st) =
            syncLoop oenv genv thr rest
              (reports ++ (pairsRun genv thr r gs st).1, failed,
                (pairsRun genv thr r gs st).2) := by
          simp [syncLoop, he, syncRule, hx]
        rw [hstep, ih]
        have : allPairs oenv (r :: rest) = gs.map (fun g => (r, g)) ++ allPairs oenv rest := by
          simp [allPairs, hrp]
        rw [this, pairsRunAll_append, ← pairsRun_eq_pairsRunAll]
    · have he' : r.isEnabled = false := by simpa using he
      have hrp : enabledRulePairs oenv r = [] := by simp [enabledRulePairs, he']
      have hstep : syncLoop oenv genv thr (r :: rest) (reports, failed, st) =
          syncLoop oenv genv thr rest (reports, failed, st) := by
        simp [syncLoop, he']
      rw [hstep, ih]
      simp [allPairs, hrp]

theorem syncLoop_acc_mono (rules : List SyncRule) :
    ∀ (reports : List SyncReport) (failed : Nat) (st : GitHubState) (rep : SyncReport),
      rep ∈ reports → rep ∈ (syncLoop oenv genv thr rules (reports, failed, st)).1 := by
  induction rules with
  | nil => intro reports failed st rep h; simpa [syncLoop] using h
  | cons r rest ih =>
    intro reports failed st rep h
    by_cases he : r.isEnabled = true
    · rcases hx : expandRule oenv r with e | gs
      · have hstep : syncLoop oenv genv thr (r :: rest) (reports, failed, st) =
            syncLoop oenv genv thr rest (reports ++ [failedReport r e], failed + 1, st) := by
          simp [syncLoop, he, syncRule, hx]
        rw [hstep]
        exact ih _ _ _ rep (List.mem_append_left _ h)
      · have hstep : syncLoop oenv genv thr (r :: rest) (reports, failed, st) =
            syncLoop oenv genv thr rest
              (reports ++ (pairsRun genv thr r gs st).1, failed,
                (pairsRun genv thr r gs st).2) := by
          simp [syncLoop, he, syncRule, hx]
        rw [hstep]
        exact ih _ _ _ rep (List.mem_append_left _ h)
    · have he' : r.isEnabled = false := by simpa using he
      have hstep : syncLoop oenv genv thr (r :: rest) (reports, failed, st) =
          syncLoop oenv genv thr rest (reports, failed, st) := by
        simp [syncLoop, he']
      rw [hstep]
      exact ih _ _ _ rep h

theorem syncLoop_pairs_subset (rules : List SyncRule) :
    ∀ (reports : List SyncReport) (failed : Nat) (st : GitHubState) (rep : SyncReport),
      rep ∈ (pairsRunAll genv thr (allPairs oenv rules) st).1 →
        rep ∈ (syncLoop oenv genv thr rules (reports, failed, st)).1 := by
  induction rules with
  | nil => intro reports failed st rep h; simp [allPairs, pairsRunAll] at h
  | cons r rest ih =>
    intro reports failed st rep h
    by_cases he : r.isEnabled = true
    · rcases hx : expandRule oenv r with e | gs
      · have hrp : enabledRulePairs oenv r = [] := by
          simp [enabledRulePairs, he, expandedGroups, hx]
        have hstep : syncLoop oenv genv thr (r :: rest) (reports, failed, st) =
            syncLoop oenv genv thr rest (reports ++ [failedReport r e], failed + 1, st) := by
          simp [syncLoop, he, syncRule, hx]
        rw [hstep]
        refine ih _ _ _ rep ?_
        have : allPairs oenv (r :: rest) = allPairs oenv rest := by simp [allPairs, hrp]
        rwa [this] at h
      · have hrp : enabledRulePairs oenv r = gs.map (fun g => (r, g)) := by
          simp [enabledRulePairs, he, expandedGroups, hx]
        have hstep : syncLoop oenv genv thr (r :: rest) (reports, failed, st) =
            syncLoop oenv genv thr rest
              (reports ++ (pairsRun genv thr r gs st).1, failed,
                (pairsRun genv thr r gs st).2) := by
          simp [syncLoop, he, syncRule, hx]
        rw [hstep]
        have hsplit : allPairs oenv (r :: rest) =
            gs.map (fun g => (r, g)) ++ allPairs oenv rest := by
          simp [allPairs, hrp]
        rw [hsplit, pairsRunAll_append] at h
        rcases List.mem_append.mp h with h | h
        · exact syncLoop_acc_mono oenv genv thr rest _ _ _ rep
            (List.mem_append_right _ (by rwa [← pairsRun_eq_pairsRunAll] at h))
        · rw [← pairsRun_eq_pairsRunAll] at h
          exact ih _ _ _ rep h
    · have he' : r.isEnabled = false := by simpa using he
      have hrp : enabledRulePairs oenv r = [] := by simp [enabledRulePairs, he']
      have hstep : syncLoop oenv genv thr (r :: rest) (reports, failed, st) =
          syncLoop oenv genv thr rest (reports, failed, st) := by
        simp [syncLoop, he']
      rw [hstep]
      refine ih _ _ _ rep ?_
      have : allPairs oenv (r :: rest) = allPairs oenv rest := by simp [allPairs, hrp]
      rwa [this] at h

theorem syncLoop_reports_classify (rules : List SyncRule) :
    ∀ (reports : List SyncReport) (failed : Nat) (st : GitHubState) (rep : SyncReport),
      rep ∈ (syncLoop oenv genv thr rules (reports, failed, st)).1 →
        rep ∈ reports ∨ (∃ r e, rep = failedReport r e) ∨
          rep ∈ (pairsRunAll genv thr (allPairs oenv rules) st).1 := by
  induction rules with
  | nil =>
    intro reports failed st rep h
    exact Or.inl (by simpa [syncLoop] using h)
  | cons r rest ih =>
    intro reports failed st rep h
    by_cases he : r.isEnabled = true
    · rcases hx : expandRule oenv r with e | gs
      · have hrp : enabledRulePairs oenv r = [] := by
          simp [enabledRulePairs, he, expandedGroups, hx]
        have hstep : syncLoop oenv genv thr (r :: rest) (reports, failed, st) =
            syncLoop oenv genv thr rest (reports ++ [failedReport r e], failed + 1, st) := by
          simp [syncLoop, he, syncRule, hx]
        rw [hstep] at h
        have hsplit : allPairs oenv (r :: rest) = allPairs oenv rest := by
          simp [allPairs, hrp]
        rcases ih _ _ _ rep h with hmem | hfr | hp
        · rcases List.mem_append.mp hmem with hmem | hmem
          · exact Or.inl hmem
          · exact Or.inr (Or.inl ⟨r, e, by simpa using hmem⟩)
        · exact Or.inr (Or.inl hfr)
        · exact Or.inr (Or.inr (by rwa [hsplit]))
      · have hrp : enabledRulePairs oenv r = gs.map (fun g => (r, g)) := by
          simp [enabledRulePairs, he, expandedGroups, hx]
        have hstep : syncLoop oenv genv thr (r :: rest) (reports, failed, st) =
            syncLoop oenv genv thr rest
              (reports ++ (pairsRun genv thr r gs st).1, failed,
                (pairsRun genv thr r gs st).2) := by
          simp [syncLoop, he, syncRule, hx]
        rw [hstep] at h
        have hsplit : allPairs oenv (r :: rest) =
            gs.map (fun g => (r, g)) ++ allPairs oenv rest := by
          simp [allPairs, hrp]
        rcases ih _ _ _ rep h with hmem | hfr | hp
        · rcases List.mem_append.mp hmem with hmem | hmem
          · exact Or.inl hmem
          · refine Or.inr (Or.inr ?_)
            rw [hsplit, pairsRunAll_append]
            exact List.mem_append_left _ (by rwa [pairsRun_eq_pairsRunAll] at hmem)
        · exact Or.inr (Or.inl hfr)
        · refine Or.inr (Or.inr ?_)
          rw [hsplit, pairsRunAll_append]
          exact List.mem_append_right _ (by rwa [pairsRun_eq_pairsRunAll] at hp)
    · have he' : r.isEnabled = false := by simpa using he
      have hrp : enabledRulePairs oenv r = [] := by simp [enabledRulePairs, he']
      have hstep : syncLoop oenv genv thr (r :: rest) (reports, failed, st) =
          syncLoop oenv genv thr rest (reports, failed, st) := by
        simp [syncLoop, he']
      rw [hstep] at h
      have hsplit : allPairs oenv (r :: rest) = allPairs oenv rest := by
        simp [allPairs, hrp]
      rcases ih _ _ _ rep h with hmem | hfr | hp
      · exact Or.inl hmem
      · exact Or.inr (Or.inl hfr)
      · exact Or.inr (Or.inr (by rwa [hsplit]))

theorem sync_state_eq (rules : List SyncRule) (st : GitHubState) :
    (sync oenv genv thr rules st).2 =
      (syncLoop oenv genv thr rules ([], 0, st)).2.2 := by
  by_cases hcond : 0 < (syncLoop oenv genv thr rules ([], 0, st)).2.1 ∧
      (syncLoop oenv genv thr rules ([], 0, st)).2.1 =
        (syncLoop oenv genv thr rules ([], 0, st)).1.length
  · simp only [sync]
    rw [if_pos hcond]
  · simp only [sync]
    rw [if_neg hcond]

theorem sync_ok_reports (rules : List SyncRule) (st : GitHubState)
    (reports : List SyncReport) (h : (sync oenv genv thr rules st).1 = .ok reports) :
    reports = (syncLoop oenv genv thr rules ([], 0, st)).1 := by
  by_cases hcond : 0 < (syncLoop oenv genv thr rules ([], 0, st)).2.1 ∧
      (syncLoop oenv genv thr rules ([], 0, st)).2.1 =
        (syncLoop oenv genv thr rules ([], 0, st)).1.length
  · simp only [sync] at h
    rw [if_pos hcond] at h
    exact absurd h (by simp)
  · simp only [sync] at h
    rw [if_neg hcond] at h
    exact (Except.ok.inj h).symm

end RunLemmas

/-- C7 (amended): running `Sync` twice against an unchanged directory and
API environment yields empty `MembersAdded` and `MembersRemoved` in every
report of the second run, provided no first-run report carries a
safety-ceiling abort and no two resolved (rule, group) pairs derive the
same team name.  Both side conditions are forced: after a ceiling abort
the first run's additions lower the removal ratio so the second run can
remove members, and two pairs sharing a team keep overwriting each other's
roster. -/
theorem sync_idempotent (oenv : OktaEnv) (genv : GitHubEnv) (thr : ℚ)
    (rules : List SyncRule) (st0 : GitHubState) (reports1 : List SyncReport)
    (h1 : (sync oenv genv thr rules st0).1 = .ok reports1)
    (hc : ∀ rep ∈ reports1, ∀ e ∈ rep.errors, e.isCeiling = false)
    (hd : ((allPairs oenv rules).map teamOfPair).Nodup) :
    ∀ reports2,
      (sync oenv genv thr rules (sync oenv genv thr rules st0).2).1 = .ok reports2 →
      ∀ rep ∈ reports2, rep.membersAdded = [] ∧ rep.membersRemoved = [] := by
  intro reports2 h2 rep hrep
  have hst1 : (sync oenv genv thr rules st0).2 =
      (pairsRunAll genv thr (allPairs oenv rules) st0).2 := by
    rw [sync_state_eq, syncLoop_state]
  have hncpairs : ∀ r ∈ (pairsRunAll genv thr (allPairs oenv rules) st0).1,
      ∀ e ∈ r.errors, e.isCeiling = false := by
    intro r hr
    apply hc
    rw [sync_ok_reports oenv genv thr rules st0 reports1 h1]
    exact syncLoop_pairs_subset oenv genv thr rules [] 0 st0 r hr
  obtain ⟨hall, -, -⟩ := pairsRunAll_idem genv thr (allPairs oenv rules) st0
    (sync oenv genv thr rules st0).2 hd hncpairs (by rw [hst1]) (fun x => by rw [hst1])
  have hrep' : rep ∈ (syncLoop oenv genv thr rules
      ([], 0, (sync oenv genv thr rules st0).2)).1 := by
    rw [← sync_ok_reports oenv genv thr rules _ reports2 h2]
    exact hrep
  rcases syncLoop_reports_classify oenv genv thr rules [] 0
      (sync oenv genv thr rules st0).2 rep hrep' with hmem | ⟨r, e, rfl⟩ | hp
  · simp at hmem
  · exact ⟨rfl, rfl⟩
  · exact hall rep hp

/-- Witness for `sync_idempotent`: a clean first sync of group `g` into
the fresh team `t`, whose second run reports no changes. -/
theorem sync_idempotent_witness :
    rep2W.membersAdded = [] ∧ rep2W.membersRemoved = [] :=
  sync_idempotent oenvOneGroup plainEnv 1 [ruleGT] stEmpty [rep1W]
    (by decide) (by decide) (by decide) [rep2W] (by decide) rep2W (by decide)

/-- C7 as stated is false on the code: with team `t` at roster `[a]`,
desired `[b]` and threshold `3/5`, the first run adds `b` and then hits
the ceiling (ratio `1/1`); the roster growth lowers the second run's ratio
to `1/2`, so the second run removes `a` — its `MembersRemoved` is not
empty although nothing changed between the runs. -/
theorem sync_not_idempotent_after_ceiling :
    (sync oenvOneGroup plainEnv (mkRat 3 5) [ruleGT] stTeamA).1 = .ok [rep1C] ∧
    (sync oenvOneGroup plainEnv (mkRat 3 5) [ruleGT]
      (sync oenvOneGroup plainEnv (mkRat 3 5) [ruleGT] stTeamA).2).1 = .ok [rep2C] ∧
    rep2C.membersRemoved ≠ [] := by
  exact ⟨by decide, by decide, by decide⟩

end GithubOps
